import Mathlib

/-!  Verification of the Polaris chess engine core against its specification.

A shallow embedding of the engine core: bitboards are natural numbers
interpreted as 64-bit words (masked with `U64Mask` where a C++ u64 would
overflow), scores are integers with C++ truncating division (`Int.tdiv`),
and the staged move generator is a state machine with explicit state
passing.  Components whose sources are not in scope (the bitboard shift
vocabulary, attack tables, rays, the material table, SEE, the pawn cache
table and the pseudolegality check) are modelled from the specification
and marked as such in their doc comments.  -/

set_option maxRecDepth 8000

namespace Polaris

/-- Mask of a 64-bit word; bitboards are kept below `2 ^ 64`. -/
def U64Mask : Nat := 2 ^ 64 - 1

/-- Bitboard with only the bit of square `s` set (LSB = a1). -/
def squareBit (s : Nat) : Nat := 1 <<< s

/-- Complement of a bitboard within 64 bits (the C++ operator ~ on u64). -/
def compl64 (b : Nat) : Nat := U64Mask ^^^ b

/-- Bitboard of a file (0 = file a). -/
def fileBB (f : Nat) : Nat := (0x0101010101010101 : Nat) <<< f

/-- Bitboard of a rank (0 = rank 1). -/
def rankBB (r : Nat) : Nat := (0xFF : Nat) <<< (8 * r)

/-- Rank 1 bitboard (the source constant boards::Rank1). -/
def Rank1 : Nat := 0xFF

/-- Rank 8 bitboard (the source constant boards::Rank8). -/
def Rank8 : Nat := (0xFF : Nat) <<< 56

/-- Light squares bitboard (b1, d1, ... ; a1 is dark). -/
def LightSquares : Nat := 0x55AA55AA55AA55AA

/-- Dark squares bitboard. -/
def DarkSquares : Nat := 0xAA55AA55AA55AA55

/-- Modelled from the spec: shift one square north (up for white);
bitboard.h is not in scope. -/
def shiftUp (b : Nat) : Nat := (b <<< 8) &&& U64Mask

/-- Modelled from the spec: shift one square south. -/
def shiftDown (b : Nat) : Nat := b >>> 8

/-- Modelled from the spec: shift one square toward file a, clearing wrap. -/
def shiftLeft (b : Nat) : Nat := (b >>> 1) &&& compl64 (fileBB 7)

/-- Modelled from the spec: shift one square toward file h, clearing wrap. -/
def shiftRight (b : Nat) : Nat := (b <<< 1) &&& U64Mask &&& compl64 (fileBB 0)

/-- Modelled from the spec: shift north-west. -/
def shiftUpLeft (b : Nat) : Nat := (b <<< 7) &&& U64Mask &&& compl64 (fileBB 7)

/-- Modelled from the spec: shift north-east. -/
def shiftUpRight (b : Nat) : Nat := (b <<< 9) &&& U64Mask &&& compl64 (fileBB 0)

/-- Modelled from the spec: shift south-west. -/
def shiftDownLeft (b : Nat) : Nat := (b >>> 9) &&& compl64 (fileBB 7)

/-- Modelled from the spec: shift south-east. -/
def shiftDownRight (b : Nat) : Nat := (b >>> 7) &&& compl64 (fileBB 0)

/-- Modelled from the spec: file fill upward (north), including the board itself. -/
def fillUp (b : Nat) : Nat :=
  let b1 := b ||| ((b <<< 8) &&& U64Mask)
  let b2 := b1 ||| ((b1 <<< 16) &&& U64Mask)
  b2 ||| ((b2 <<< 32) &&& U64Mask)

/-- Modelled from the spec: file fill downward (south), including the board itself. -/
def fillDown (b : Nat) : Nat :=
  let b1 := b ||| (b >>> 8)
  let b2 := b1 ||| (b1 >>> 16)
  b2 ||| (b2 >>> 32)

/-- Modelled from the spec: full file fill. -/
def fillFile (b : Nat) : Nat := fillUp b ||| fillDown b

/-- Piece colors. -/
inductive Color
| black
| white
deriving DecidableEq, Repr

/-- Opposite color. -/
def oppColor : Color → Color
| .black => .white
| .white => .black

/-- Relative shift: up for white, down for black. -/
def shiftUpRel (c : Color) (b : Nat) : Nat :=
  match c with
  | .black => shiftDown b
  | .white => shiftUp b

/-- Relative shift: down for white, up for black. -/
def shiftDownRel (c : Color) (b : Nat) : Nat :=
  match c with
  | .black => shiftUp b
  | .white => shiftDown b

/-- Relative diagonal shift toward file a, forward for the given color. -/
def shiftUpLeftRel (c : Color) (b : Nat) : Nat :=
  match c with
  | .black => shiftDownLeft b
  | .white => shiftUpLeft b

/-- Relative diagonal shift toward file h, forward for the given color. -/
def shiftUpRightRel (c : Color) (b : Nat) : Nat :=
  match c with
  | .black => shiftDownRight b
  | .white => shiftUpRight b

/-- Relative fill forward. -/
def fillUpRel (c : Color) (b : Nat) : Nat :=
  match c with
  | .black => fillDown b
  | .white => fillUp b

/-- Relative fill backward. -/
def fillDownRel (c : Color) (b : Nat) : Nat :=
  match c with
  | .black => fillUp b
  | .white => fillDown b

/-- Pawn advance offset of a color (offsets::up in the source). -/
def upOff : Color → Int
| .black => -8
| .white => 8

/-- Pawn capture offset toward file a (offsets::upLeft in the source). -/
def upLeftOff : Color → Int
| .black => -9
| .white => 7

/-- Pawn capture offset toward file h (offsets::upRight in the source). -/
def upRightOff : Color → Int
| .black => -7
| .white => 9

/-- Rank of a square (0-based). -/
def squareRank (s : Nat) : Nat := s / 8

/-- File of a square (0-based). -/
def squareFile (s : Nat) : Nat := s % 8

/-- Square from rank and file. -/
def toSquare (r f : Nat) : Nat := r * 8 + f

/-- Rank from the perspective of a color. -/
def relativeRank (c : Color) (r : Nat) : Nat :=
  match c with
  | .black => 7 - r
  | .white => r

/-- Relative rank bitboard of a color (boards::rank in the source). -/
def rankRelBB (c : Color) (r : Nat) : Nat := rankBB (relativeRank c r)

/-- Promotion rank bitboard of a color. -/
def promotionRankBB (c : Color) : Nat :=
  match c with
  | .black => Rank1
  | .white => Rank8

/-- Chebyshev distance between two squares. -/
def chebyshev (a b : Nat) : Nat :=
  max ((squareFile a : Int) - squareFile b).natAbs ((squareRank a : Int) - squareRank b).natAbs

/-- Number of set bits among the low 64 bits (popcount on a u64). -/
def popcount (b : Nat) : Nat :=
  Finset.card ((Finset.range 64).filter (fun i => b.testBit i))

/-- Modelled from the spec: a bitboard has more than one bit set
(the multiple() test of the missing bitboard.h). -/
def multipleBits (b : Nat) : Bool := decide (2 ≤ popcount b)

/-- Index of the lowest set bit, with fuel; 64 on the empty board. -/
def lowestSquareGo : Nat → Nat → Nat
| 0, _ => 0
| fuel + 1, b => if b % 2 = 1 then 0 else 1 + lowestSquareGo fuel (b / 2)

/-- Index of the lowest set bit of a bitboard. -/
def lowestSquare (b : Nat) : Nat := lowestSquareGo 64 b

/-- Bitboard with its lowest set bit removed. -/
def popLowest (b : Nat) : Nat := b &&& (b - 1)

/-- Squares of a bitboard in increasing order, with fuel. -/
def squaresListGo : Nat → Nat → List Nat
| 0, _ => []
| fuel + 1, b => if b = 0 then [] else lowestSquare b :: squaresListGo fuel (popLowest b)

/-- Squares of a bitboard in the order the engine pops them (lowest first). -/
def squaresList (b : Nat) : List Nat := squaresListGo 64 b

/-- Tapered midgame/endgame score pair. -/
structure TaperedScore where
  midgame : Int
  endgame : Int
deriving DecidableEq, Repr

instance : Add TaperedScore := ⟨fun a b => ⟨a.midgame + b.midgame, a.endgame + b.endgame⟩⟩

instance : Sub TaperedScore := ⟨fun a b => ⟨a.midgame - b.midgame, a.endgame - b.endgame⟩⟩

instance : Neg TaperedScore := ⟨fun a => ⟨-a.midgame, -a.endgame⟩⟩

/-- Zero tapered score. -/
def tsZero : TaperedScore := ⟨0, 0⟩

/-- Scale a tapered score by an integer (the C++ operator * on TaperedScore). -/
def tsMul (s : TaperedScore) (k : Int) : TaperedScore := ⟨s.midgame * k, s.endgame * k⟩

/-- Base piece kinds, in the source enumeration order. -/
inductive BasePiece
| pawn
| knight
| bishop
| rook
| queen
| king
deriving DecidableEq, Repr

/-- Move kinds of the 2-bit move type field. -/
inductive MoveType
| standard
| promotion
| castling
| enPassant
deriving DecidableEq, Repr

/-- A move: source square, destination square, type, 2-bit promotion index.
The 16-bit packing of the source is faithfully represented by the fields;
equality of packed words is equality of the fields. -/
structure Move where
  src : Nat
  dst : Nat
  mtype : MoveType
  targetIdx : Nat
deriving DecidableEq, Repr

/-- The all-zero null move. -/
def NullMove : Move := ⟨0, 0, .standard, 0⟩

/-- Promotion target index of a base piece (knight 0 ... queen 3). -/
def promoIdx : BasePiece → Nat
| .knight => 0
| .bishop => 1
| .rook => 2
| .queen => 3
| _ => 0

/-- Standard move constructor. -/
def Move.standard (s d : Nat) : Move := ⟨s, d, .standard, 0⟩

/-- Promotion move constructor. -/
def Move.promotion (s d : Nat) (t : BasePiece) : Move := ⟨s, d, .promotion, promoIdx t⟩

/-- Castling move constructor (src = king square, dst = rook square). -/
def Move.castlingMove (s d : Nat) : Move := ⟨s, d, .castling, 0⟩

/-- En passant move constructor. -/
def Move.epMove (s d : Nat) : Move := ⟨s, d, .enPassant, 0⟩

/-- Promotion target piece of a move. -/
def Move.target (m : Move) : BasePiece :=
  match m.targetIdx with
  | 0 => .knight
  | 1 => .bishop
  | 2 => .rook
  | _ => .queen

/-- Modelled from the spec: a square offset by a file/rank delta, None when
it leaves the board.  Replaces the missing attack-table headers. -/
def offsetSq (sq : Nat) (df dr : Int) : Option Nat :=
  let f : Int := (sq % 8 : Nat) + df
  let r : Int := (sq / 8 : Nat) + dr
  if 0 ≤ f ∧ f < 8 ∧ 0 ≤ r ∧ r < 8 then some (Int.toNat (r * 8 + f)) else none

/-- Union of single-step targets from a square. -/
def stepAttacks (sq : Nat) (offs : List (Int × Int)) : Nat :=
  offs.foldl (fun acc o =>
    match offsetSq sq o.1 o.2 with
    | some s => acc ||| squareBit s
    | none => acc) 0

/-- Modelled from the spec: knight attack bitboard of a square. -/
def knightAttacks (sq : Nat) : Nat :=
  stepAttacks sq [(1, 2), (2, 1), (2, -1), (1, -2), (-1, -2), (-2, -1), (-2, 1), (-1, 2)]

/-- Modelled from the spec: king attack bitboard of a square. -/
def kingAttacks (sq : Nat) : Nat :=
  stepAttacks sq [(1, 0), (1, 1), (0, 1), (-1, 1), (-1, 0), (-1, -1), (0, -1), (1, -1)]

/-- Modelled from the spec: capture squares of a pawn of the given color. -/
def pawnAttacks (c : Color) (sq : Nat) : Nat :=
  match c with
  | .white => stepAttacks sq [(-1, 1), (1, 1)]
  | .black => stepAttacks sq [(-1, -1), (1, -1)]

/-- Walk a ray direction until a blocker (inclusive), with fuel. -/
def walkDir (occ : Nat) (df dr : Int) : Nat → Nat → Nat
| 0, _ => 0
| fuel + 1, sq =>
  match offsetSq sq df dr with
  | none => 0
  | some s => squareBit s ||| (if occ.testBit s then 0 else walkDir occ df dr fuel s)

/-- Modelled from the spec: rook attacks over an occupancy. -/
def rookAttacks (sq occ : Nat) : Nat :=
  walkDir occ 1 0 7 sq ||| walkDir occ (-1) 0 7 sq |||
  walkDir occ 0 1 7 sq ||| walkDir occ 0 (-1) 7 sq

/-- Modelled from the spec: bishop attacks over an occupancy. -/
def bishopAttacks (sq occ : Nat) : Nat :=
  walkDir occ 1 1 7 sq ||| walkDir occ 1 (-1) 7 sq |||
  walkDir occ (-1) 1 7 sq ||| walkDir occ (-1) (-1) 7 sq

/-- Modelled from the spec: queen attacks are rook plus bishop attacks. -/
def queenAttacks (sq occ : Nat) : Nat := rookAttacks sq occ ||| bishopAttacks sq occ

/-- Direction sign toward a target coordinate. -/
def dirSign (a b : Nat) : Int := if a < b then 1 else if b < a then -1 else 0

/-- Collect squares along a direction up to (excluding) a target, with fuel. -/
def collectBetween (target : Nat) (df dr : Int) : Nat → Nat → Nat
| 0, _ => 0
| fuel + 1, sq =>
  match offsetSq sq df dr with
  | none => 0
  | some s => if s = target then 0 else squareBit s ||| collectBetween target df dr fuel s

/-- Modelled from the spec: bitboard of squares strictly between two squares
on a shared rank, file or diagonal, else empty (rays.h is not in scope). -/
def rayBetween (a b : Nat) : Nat :=
  let df := dirSign (squareFile a) (squareFile b)
  let dr := dirSign (squareRank a) (squareRank b)
  let aligned :=
    squareRank a = squareRank b ∨ squareFile a = squareFile b ∨
    ((squareFile a : Int) - squareFile b).natAbs = ((squareRank a : Int) - squareRank b).natAbs
  if aligned ∧ a ≠ b then collectBetween b df dr 8 a else 0

/-- The per-color occupancy and per-piece bitboards of a position. -/
structure PositionBoards where
  blackOcc : Nat
  whiteOcc : Nat
  pawnB : Nat
  knightB : Nat
  bishopB : Nat
  rookB : Nat
  queenB : Nat
  kingB : Nat
deriving DecidableEq, Repr

namespace PositionBoards

/-- Occupancy of one color. -/
def forColor (bd : PositionBoards) (c : Color) : Nat :=
  match c with
  | .black => bd.blackOcc
  | .white => bd.whiteOcc

/-- Bitboard of one base piece, both colors. -/
def forPiece (bd : PositionBoards) (p : BasePiece) : Nat :=
  match p with
  | .pawn => bd.pawnB
  | .knight => bd.knightB
  | .bishop => bd.bishopB
  | .rook => bd.rookB
  | .queen => bd.queenB
  | .king => bd.kingB

/-- Bitboard of one base piece of one color. -/
def forPieceC (bd : PositionBoards) (p : BasePiece) (c : Color) : Nat :=
  bd.forPiece p &&& bd.forColor c

/-- Total occupancy. -/
def occupancy (bd : PositionBoards) : Nat := bd.blackOcc ||| bd.whiteOcc

/-- Pawns of one color. -/
def pawns (bd : PositionBoards) (c : Color) : Nat := bd.forPieceC .pawn c

/-- Knights of one color. -/
def knights (bd : PositionBoards) (c : Color) : Nat := bd.forPieceC .knight c

/-- Bishops of one color. -/
def bishops (bd : PositionBoards) (c : Color) : Nat := bd.forPieceC .bishop c

/-- Rooks of one color. -/
def rooks (bd : PositionBoards) (c : Color) : Nat := bd.forPieceC .rook c

/-- Queens of one color. -/
def queens (bd : PositionBoards) (c : Color) : Nat := bd.forPieceC .queen c

/-- Kings of one color. -/
def kings (bd : PositionBoards) (c : Color) : Nat := bd.forPieceC .king c

/-- Minor pieces, both colors. -/
def minors (bd : PositionBoards) : Nat := bd.knightB ||| bd.bishopB

/-- Major pieces, both colors. -/
def majors (bd : PositionBoards) : Nat := bd.rookB ||| bd.queenB

/-- Non-pawn non-king pieces, both colors. -/
def nonPk (bd : PositionBoards) : Nat := bd.minors ||| bd.majors

/-- Minor pieces of one color. -/
def minorsC (bd : PositionBoards) (c : Color) : Nat := bd.minors &&& bd.forColor c

/-- Major pieces of one color. -/
def majorsC (bd : PositionBoards) (c : Color) : Nat := bd.majors &&& bd.forColor c

/-- Non-pawn non-king pieces of one color. -/
def nonPkC (bd : PositionBoards) (c : Color) : Nat := bd.nonPk &&& bd.forColor c

/-- Scan the piece bitboards for the piece at a bit, in the source scan order. -/
def findPiece (bd : PositionBoards) (bit : Nat) (c : Color) : Option (BasePiece × Color) :=
  if bd.pawnB &&& bit ≠ 0 then some (.pawn, c)
  else if bd.knightB &&& bit ≠ 0 then some (.knight, c)
  else if bd.bishopB &&& bit ≠ 0 then some (.bishop, c)
  else if bd.rookB &&& bit ≠ 0 then some (.rook, c)
  else if bd.queenB &&& bit ≠ 0 then some (.queen, c)
  else if bd.kingB &&& bit ≠ 0 then some (.king, c)
  else none

/-- Piece at a square; none when the square is empty.  The C++ source asserts
when a color bit has no matching piece bitboard; that unreachable branch is
modelled as none. -/
def pieceAt (bd : PositionBoards) (sq : Nat) : Option (BasePiece × Color) :=
  let bit := squareBit sq
  if bd.blackOcc &&& bit ≠ 0 then bd.findPiece bit .black
  else if bd.whiteOcc &&& bit ≠ 0 then bd.findPiece bit .white
  else none

end PositionBoards

/-- The insufficient-material tail of isDrawn: no pawns or majors, then
bare kings, a lone minor against a bare king, or single bishops of both
colors on opposite-colored squares. -/
def insufficientMaterial (bd : PositionBoards) : Bool :=
  if bd.pawnB ≠ 0 ∨ bd.majors ≠ 0 then false
  else if bd.nonPk = 0 then true
  else if (bd.nonPkC .black = 0 ∧ bd.nonPkC .white = bd.minorsC .white ∧
             ¬ multipleBits (bd.minorsC .white)) ∨
          (bd.nonPkC .white = 0 ∧ bd.nonPkC .black = bd.minorsC .black ∧
             ¬ multipleBits (bd.minorsC .black)) then true
  else if (bd.nonPkC .black = bd.bishops .black ∧ bd.nonPkC .white = bd.bishops .white) ∧
          ¬ multipleBits (bd.bishops .black) ∧ ¬ multipleBits (bd.bishops .white) ∧
          (decide (bd.bishops .black &&& LightSquares = 0) ≠
             decide (bd.bishops .white &&& LightSquares = 0)) then true
  else false

/-- The four castling rook source squares, None when the right is lost. -/
structure CastlingRooks where
  blackShort : Option Nat
  blackLong : Option Nat
  whiteShort : Option Nat
  whiteLong : Option Nat
deriving DecidableEq, Repr

/-- The current state of a game position, as read by the engine core.
The repetition list `prevKeys` holds the Zobrist keys of the prior
positions of the game; the current key is the `zkey` field. -/
structure Position where
  boards : PositionBoards
  blackToMove : Bool
  enPassantSq : Option Nat
  checkers : Nat
  kingSqB : Nat
  kingSqW : Nat
  castlingRooks : CastlingRooks
  halfmove : Nat
  zkey : Nat
  prevKeys : List Nat
  material : TaperedScore
  phase : Int
  pawnKey : Nat
  fullmove : Nat
deriving DecidableEq, Repr

namespace Position

/-- Side to move. -/
def toMove (pos : Position) : Color := if pos.blackToMove then .black else .white

/-- Opponent of the side to move. -/
def opponent (pos : Position) : Color := if pos.blackToMove then .white else .black

/-- King square of a color (the kings array of the state frame). -/
def kingSq (pos : Position) (c : Color) : Nat :=
  match c with
  | .black => pos.kingSqB
  | .white => pos.kingSqW

/-- Whether the side to move is in check. -/
def isCheck (pos : Position) : Bool := decide (pos.checkers ≠ 0)

/-- Tapered interpolation by game phase, with C++ truncating division. -/
def interpScore (pos : Position) (s : TaperedScore) : Int :=
  Int.tdiv (s.midgame * pos.phase + s.endgame * (24 - pos.phase)) 24

/-- Pieces of a color attacking a square, over the full occupancy. -/
def attackersTo (pos : Position) (square : Nat) (attacker : Color) : Nat :=
  let bd := pos.boards
  let occ := bd.occupancy
  let queens := bd.queens attacker
  let rooks := queens ||| bd.rooks attacker
  let a1 := rooks &&& rookAttacks square occ
  let bishops := queens ||| bd.bishops attacker
  let a2 := a1 ||| (bishops &&& bishopAttacks square occ)
  let a3 := a2 ||| (bd.pawns attacker &&& pawnAttacks (oppColor attacker) square)
  let a4 := a3 ||| (bd.knights attacker &&& knightAttacks square)
  a4 ||| (bd.kings attacker &&& kingAttacks square)

/-- Whether a square is attacked by any piece of the given color. -/
def isAttacked (pos : Position) (square : Nat) (attacker : Color) : Bool :=
  let bd := pos.boards
  let occ := bd.occupancy
  if bd.knights attacker &&& knightAttacks square ≠ 0 then true
  else if bd.pawns attacker &&& pawnAttacks (oppColor attacker) square ≠ 0 then true
  else if bd.kings attacker &&& kingAttacks square ≠ 0 then true
  else if (bd.queens attacker ||| bd.bishops attacker) &&& bishopAttacks square occ ≠ 0 then true
  else if (bd.queens attacker ||| bd.rooks attacker) &&& rookAttacks square occ ≠ 0 then true
  else false

/-- Whether any square of a bitboard is attacked by the given color. -/
def anyAttacked (pos : Position) (squares : Nat) (attacker : Color) : Bool :=
  (squaresList squares).any (fun sq => pos.isAttacked sq attacker)

/-- Repetition scan of isDrawn: walk the stored keys, decrementing the
remaining repetition budget on each match of the current key. -/
def repLoop (curr : Nat) : List Nat → Int → Bool
| [], _ => false
| k :: rest, left =>
  if k = curr then
    if left - 1 = 0 then true else repLoop curr rest (left - 1)
  else repLoop curr rest left

/-- Draw detection: 50-move rule, repetition, insufficient material. -/
def isDrawn (pos : Position) (threefold : Bool) : Bool :=
  if 100 ≤ pos.halfmove then true
  else
    let repetitionsLeft : Int := if threefold then 2 else 1
    if repLoop pos.zkey pos.prevKeys.reverse repetitionsLeft then true
    else insufficientMaterial pos.boards

/-- Likely-draw detection, used only to scale the evaluation down. -/
def isLikelyDrawn (pos : Position) : Bool :=
  let bd := pos.boards
  if bd.pawnB ≠ 0 ∨ bd.majors ≠ 0 then false
  else if (bd.nonPkC .black = 0 ∧ bd.nonPkC .white = bd.knights .white ∧
             popcount (bd.knights .white) < 3) ∨
          (bd.nonPkC .white = 0 ∧ bd.nonPkC .black = bd.knights .black ∧
             popcount (bd.knights .black) < 3) then true
  else if bd.nonPk ≠ 0 then
    if ¬ multipleBits (bd.minorsC .white) ∧ ¬ multipleBits (bd.minorsC .black) then true
    else if bd.nonPk = bd.bishopB ∧
            ((popcount (bd.bishops .white) < 3 ∧ ¬ multipleBits (bd.bishops .black)) ∨
             (popcount (bd.bishops .black) < 3 ∧ ¬ multipleBits (bd.bishops .white))) then true
    else false
  else false

end Position

/-- Runtime options that reach the core (the injected g_opts of the source). -/
structure GlobalOptions where
  chess960 : Bool
  underpromotions : Bool
deriving DecidableEq, Repr

/-- A move paired with an ordering score. -/
structure ScoredMove where
  move : Move
  score : Int
deriving DecidableEq, Repr

/-- Emit standard moves whose source is the destination minus an offset. -/
def pushStandardsOff (off : Int) (board : Nat) : List ScoredMove :=
  (squaresList board).map (fun (d : Nat) => ⟨Move.standard (((d : Int) - off).toNat) d, 0⟩)

/-- Emit standard moves from a fixed source square. -/
def pushStandardsFrom (src : Nat) (board : Nat) : List ScoredMove :=
  (squaresList board).map (fun d => ⟨Move.standard src d, 0⟩)

/-- Emit queen promotions whose source is the destination minus an offset. -/
def pushQueenPromotions (off : Int) (board : Nat) : List ScoredMove :=
  (squaresList board).map (fun (d : Nat) => ⟨Move.promotion (((d : Int) - off).toNat) d .queen, 0⟩)

/-- Emit underpromotions: knight always, rook and bishop under the option. -/
def pushUnderpromotions (opts : GlobalOptions) (off : Int) (board : Nat) : List ScoredMove :=
  (squaresList board).flatMap (fun (d : Nat) =>
    let s := ((d : Int) - off).toNat
    ⟨Move.promotion s d .knight, 0⟩ ::
      (if opts.underpromotions then
        [⟨Move.promotion s d .rook, 0⟩, ⟨Move.promotion s d .bishop, 0⟩]
      else []))

/-- Emit one castling move. -/
def pushCastling (src dst : Nat) : List ScoredMove := [⟨Move.castlingMove src dst, 0⟩]

/-- Emit en passant captures whose source is the destination minus an offset. -/
def pushEnPassants (off : Int) (board : Nat) : List ScoredMove :=
  (squaresList board).map (fun (d : Nat) => ⟨Move.epMove (((d : Int) - off).toNat) d, 0⟩)

/-- Noisy pawn move generation for the side to move. -/
def generatePawnsNoisy (pos : Position) (dstMask : Nat) : List ScoredMove :=
  let us := pos.toMove
  let them := oppColor us
  let promotionRank := promotionRankBB us
  let forwardOff := upOff us
  let leftOff := upLeftOff us
  let rightOff := upRightOff us
  let bd := pos.boards
  let theirs := bd.forColor them
  let forwardDstMask := dstMask &&& promotionRank &&& compl64 theirs
  let pawns := bd.pawns us
  let leftAttacks := shiftUpLeftRel us pawns &&& dstMask
  let rightAttacks := shiftUpRightRel us pawns &&& dstMask
  pushQueenPromotions leftOff (leftAttacks &&& theirs &&& promotionRank) ++
  pushQueenPromotions rightOff (rightAttacks &&& theirs &&& promotionRank) ++
  pushQueenPromotions forwardOff (shiftUpRel us pawns &&& forwardDstMask) ++
  pushStandardsOff leftOff (leftAttacks &&& theirs &&& compl64 promotionRank) ++
  pushStandardsOff rightOff (rightAttacks &&& theirs &&& compl64 promotionRank) ++
  (match pos.enPassantSq with
   | some ep =>
     let epMask := squareBit ep
     pushEnPassants leftOff (leftAttacks &&& epMask) ++
     pushEnPassants rightOff (rightAttacks &&& epMask)
   | none => [])

/-- Quiet pawn move generation for the side to move. -/
def generatePawnsQuiet (opts : GlobalOptions) (pos : Position) (dstMask occ : Nat) :
    List ScoredMove :=
  let us := pos.toMove
  let them := oppColor us
  let promotionRank := promotionRankBB us
  let thirdRank := rankRelBB us 2
  let forwardOff := upOff us
  let doubleOff := forwardOff * 2
  let leftOff := upLeftOff us
  let rightOff := upRightOff us
  let bd := pos.boards
  let theirs := bd.forColor them
  let forwardDstMask := dstMask &&& compl64 theirs
  let pawns := bd.pawns us
  let leftAttacks := shiftUpLeftRel us pawns &&& dstMask
  let rightAttacks := shiftUpRightRel us pawns &&& dstMask
  let forwards := shiftUpRel us pawns &&& compl64 occ
  let singles := forwards &&& forwardDstMask
  let doubles := shiftUpRel us (forwards &&& thirdRank) &&& forwardDstMask
  pushUnderpromotions opts leftOff (leftAttacks &&& theirs &&& promotionRank) ++
  pushUnderpromotions opts rightOff (rightAttacks &&& theirs &&& promotionRank) ++
  pushUnderpromotions opts forwardOff (singles &&& promotionRank) ++
  pushStandardsOff doubleOff doubles ++
  pushStandardsOff forwardOff (singles &&& compl64 promotionRank)

/-- Moves of pieces with precalculated attack tables (knights and kings). -/
def precalculatedMoves (pos : Position) (p : BasePiece) (attackFn : Nat → Nat)
    (dstMask : Nat) : List ScoredMove :=
  (squaresList (pos.boards.forPieceC p pos.toMove)).flatMap (fun src =>
    pushStandardsFrom src (attackFn src &&& dstMask))

/-- Knight move generation. -/
def generateKnights (pos : Position) (dstMask : Nat) : List ScoredMove :=
  precalculatedMoves pos .knight knightAttacks dstMask

/-- Chess960 castling generation for one side of the board. -/
def generateFrcCastling (pos : Position) (occupancy king kingDst rook rookDst : Nat) :
    List ScoredMove :=
  let toKingDst := rayBetween king kingDst
  let toRook := rayBetween king rook
  let occ := occupancy ^^^ squareBit king ^^^ squareBit rook
  if occ &&& (toKingDst ||| toRook ||| squareBit kingDst ||| squareBit rookDst) = 0 ∧
     ¬ pos.anyAttacked (toKingDst ||| squareBit kingDst) pos.opponent then
    pushCastling king rook
  else []

/-- Castling move generation (both the standard and the Chess960 paths). -/
def castlingMoves (opts : GlobalOptions) (pos : Position) : List ScoredMove :=
  let cr := pos.castlingRooks
  let occupancy := pos.boards.occupancy
  if opts.chess960 then
    if pos.toMove = .black then
      (match cr.blackShort with
       | some rook => generateFrcCastling pos occupancy pos.kingSqB 62 rook 61
       | none => []) ++
      (match cr.blackLong with
       | some rook => generateFrcCastling pos occupancy pos.kingSqB 58 rook 59
       | none => [])
    else
      (match cr.whiteShort with
       | some rook => generateFrcCastling pos occupancy pos.kingSqW 6 rook 5
       | none => []) ++
      (match cr.whiteLong with
       | some rook => generateFrcCastling pos occupancy pos.kingSqW 2 rook 3
       | none => [])
  else
    if pos.toMove = .black then
      (if cr.blackShort.isSome ∧ occupancy &&& 0x6000000000000000 = 0 ∧
          ¬ pos.isAttacked 61 .white then pushCastling pos.kingSqB 63 else []) ++
      (if cr.blackLong.isSome ∧ occupancy &&& 0x0E00000000000000 = 0 ∧
          ¬ pos.isAttacked 59 .white then pushCastling pos.kingSqB 56 else [])
    else
      (if cr.whiteShort.isSome ∧ occupancy &&& 0x0000000000000060 = 0 ∧
          ¬ pos.isAttacked 5 .black then pushCastling pos.kingSqW 7 else []) ++
      (if cr.whiteLong.isSome ∧ occupancy &&& 0x000000000000000E = 0 ∧
          ¬ pos.isAttacked 3 .black then pushCastling pos.kingSqW 0 else [])

/-- King move generation, with castling when the flag is set. -/
def generateKings (castling : Bool) (opts : GlobalOptions) (pos : Position)
    (dstMask : Nat) : List ScoredMove :=
  precalculatedMoves pos .king kingAttacks dstMask ++
  (if castling ∧ ¬ pos.isCheck then castlingMoves opts pos else [])

/-- Slider move generation (queens are folded into both passes). -/
def generateSliders (pos : Position) (dstMask : Nat) : List ScoredMove :=
  let bd := pos.boards
  let us := pos.toMove
  let them := oppColor us
  let occupancy := bd.forColor us ||| bd.forColor them
  let queens := bd.queens us
  let rooks := queens ||| bd.rooks us
  let bishops := queens ||| bd.bishops us
  (squaresList rooks).flatMap (fun src =>
    pushStandardsFrom src (rookAttacks src occupancy &&& dstMask)) ++
  (squaresList bishops).flatMap (fun src =>
    pushStandardsFrom src (bishopAttacks src occupancy &&& dstMask))

/-- The en passant mask and the bitboard of the capturable en passant pawn. -/
def epMasks (pos : Position) : Nat × Nat :=
  match pos.enPassantSq with
  | some ep =>
    let epMask := squareBit ep
    (epMask, if pos.toMove = .black then shiftUp epMask else shiftDown epMask)
  | none => (0, 0)

/-- Noisy move generation: captures, queen promotions and en passant. -/
def generateNoisy (pos : Position) : List ScoredMove :=
  let bd := pos.boards
  let us := pos.toMove
  let them := oppColor us
  let ours := bd.forColor us
  let kingDstMask := bd.forColor them
  let em := epMasks pos
  let epMask := em.1
  let epPawn := em.2
  let promos := compl64 ours &&& (if us = .black then Rank1 else Rank8)
  if pos.isCheck then
    if multipleBits pos.checkers then
      generateKings false ⟨false, false⟩ pos kingDstMask
    else
      let dstMask := pos.checkers
      let ray := rayBetween (pos.kingSq us) (lowestSquare pos.checkers)
      let pawnDstMask :=
        (kingDstMask ||| (promos &&& ray)) |||
          (if pos.checkers &&& epPawn ≠ 0 then epMask else 0)
      generateSliders pos dstMask ++
      generatePawnsNoisy pos pawnDstMask ++
      generateKnights pos dstMask ++
      generateKings false ⟨false, false⟩ pos kingDstMask
  else
    let dstMask := kingDstMask
    let pawnDstMask := kingDstMask ||| epMask ||| promos
    generateSliders pos dstMask ++
    generatePawnsNoisy pos pawnDstMask ++
    generateKnights pos dstMask ++
    generateKings false ⟨false, false⟩ pos kingDstMask

/-- Quiet move generation: non-captures, underpromotions and castling. -/
def generateQuiet (opts : GlobalOptions) (pos : Position) : List ScoredMove :=
  let bd := pos.boards
  let us := pos.toMove
  let them := oppColor us
  let ours := bd.forColor us
  let theirs := bd.forColor them
  let kingDstMask := compl64 (ours ||| theirs)
  if pos.isCheck then
    if multipleBits pos.checkers then
      generateKings false opts pos kingDstMask
    else
      let dstMask := rayBetween (pos.kingSq us) (lowestSquare pos.checkers)
      let pawnDstMask := dstMask ||| (pos.checkers &&& promotionRankBB us)
      generateSliders pos dstMask ++
      generatePawnsQuiet opts pos pawnDstMask (ours ||| theirs) ++
      generateKnights pos dstMask ++
      generateKings true opts pos kingDstMask
  else
    let dstMask := kingDstMask
    let pawnDstMask := kingDstMask ||| promotionRankBB us
    generateSliders pos dstMask ++
    generatePawnsQuiet opts pos pawnDstMask (ours ||| theirs) ++
    generateKnights pos dstMask ++
    generateKings true opts pos kingDstMask

/-- Combined move generation. -/
def generateAll (opts : GlobalOptions) (pos : Position) : List ScoredMove :=
  let bd := pos.boards
  let us := pos.toMove
  let kingDstMask := compl64 (bd.forColor us)
  let em := epMasks pos
  let epMask := em.1
  let epPawn := em.2
  if pos.isCheck then
    if multipleBits pos.checkers then
      generateKings false opts pos kingDstMask
    else
      let dstMask := pos.checkers |||
        rayBetween (pos.kingSq us) (lowestSquare pos.checkers)
      let pawnDstMask := dstMask |||
        (if pos.checkers &&& epPawn ≠ 0 then epMask else 0)
      generateSliders pos dstMask ++
      generatePawnsNoisy pos pawnDstMask ++
      generatePawnsQuiet opts pos dstMask bd.occupancy ++
      generateKnights pos dstMask ++
      generateKings true opts pos kingDstMask
  else
    let dstMask := kingDstMask
    let pawnDstMask := kingDstMask
    generateSliders pos dstMask ++
    generatePawnsNoisy pos pawnDstMask ++
    generatePawnsQuiet opts pos dstMask bd.occupancy ++
    generateKnights pos dstMask ++
    generateKings true opts pos kingDstMask

/-- Modelled from the spec: pseudolegality of a stored move; the defining
source (position.cpp) is not in scope.  Checks, per the specification: the
correct side moves, a piece sits on the source, the geometry is legal over
the occupancy, the destination holds no own piece, promotions happen only
on the last rank, en passant matches the current en passant square, and
castling matches a generated castling move. -/
def isPseudolegal (opts : GlobalOptions) (pos : Position) (m : Move) : Bool :=
  if m = NullMove ∨ 64 ≤ m.dst then false
  else
    let us := pos.toMove
    let bd := pos.boards
    let occ := bd.occupancy
    let theirs := bd.forColor (oppColor us)
    match bd.pieceAt m.src with
    | none => false
    | some (bp, c) =>
      if c ≠ us then false
      else if bd.forColor us &&& squareBit m.dst ≠ 0 ∧ m.mtype ≠ .castling then false
      else
        match m.mtype with
        | .standard =>
          match bp with
          | .pawn =>
            decide (¬ (promotionRankBB us).testBit m.dst) &&
            ((decide ((m.dst : Int) = m.src + upOff us) && decide (¬ occ.testBit m.dst)) ||
             (decide ((rankRelBB us 1).testBit m.src) &&
              decide ((m.dst : Int) = m.src + 2 * upOff us) &&
              decide (¬ occ.testBit (((m.src : Int) + upOff us).toNat)) &&
              decide (¬ occ.testBit m.dst)) ||
             (decide ((pawnAttacks us m.src).testBit m.dst) && decide (theirs.testBit m.dst)))
          | .knight => (knightAttacks m.src).testBit m.dst
          | .bishop => (bishopAttacks m.src occ).testBit m.dst
          | .rook => (rookAttacks m.src occ).testBit m.dst
          | .queen => (queenAttacks m.src occ).testBit m.dst
          | .king => (kingAttacks m.src).testBit m.dst
        | .promotion =>
          decide (bp = .pawn) && decide ((promotionRankBB us).testBit m.dst) &&
          ((decide ((m.dst : Int) = m.src + upOff us) && decide (¬ occ.testBit m.dst)) ||
           (decide ((pawnAttacks us m.src).testBit m.dst) && decide (theirs.testBit m.dst)))
        | .enPassant =>
          decide (bp = .pawn) && decide (pos.enPassantSq = some m.dst) &&
          decide ((pawnAttacks us m.src).testBit m.dst)
        | .castling =>
          decide ((⟨m, 0⟩ : ScoredMove) ∈ castlingMoves opts pos)

/-- Staged move generator stage numbers, in the source order. -/
def stageStart : Nat := 0

/-- Hash move stage. -/
def stageHash : Nat := 1

/-- Good noisy stage. -/
def stageGoodNoisy : Nat := 2

/-- Killer stage. -/
def stageKiller : Nat := 3

/-- Countermove stage. -/
def stageCountermove : Nat := 4

/-- Quiet stage. -/
def stageQuiet : Nat := 5

/-- Bad noisy stage. -/
def stageBadNoisy : Nat := 6

/-- End stage. -/
def stageEnd : Nat := 7

/-- Promotion ordering biases, indexed by promotion target index
(knight, bishop, rook, queen). -/
def PromoScores : List Int := [1, -2, -1, 2]

/-- Modelled from the spec: midgame piece value lookup; material.h is not in
scope, so the values are a parameter.  A missing piece is worth zero. -/
def pieceValueMg (vals : BasePiece → Int) (p : Option (BasePiece × Color)) : Int :=
  match p with
  | none => 0
  | some q => vals q.1

/-- A history table key: moving piece plus source and destination. -/
structure HistoryMove where
  piece : Option (BasePiece × Color)
  src : Nat
  dst : Nat
deriving DecidableEq, Repr

/-- Build the history key of a move over the boards. -/
def HistoryMove.fromBoards (bd : PositionBoards) (m : Move) : HistoryMove :=
  ⟨bd.pieceAt m.src, m.src, m.dst⟩

/-- The search-owned history tables, seen abstractly by the iterator:
a butterfly score, a countermove lookup and continuation scores. -/
structure HistoryTable where
  entryScore : HistoryMove → Int
  counter : HistoryMove → Move
  contScore : HistoryMove → HistoryMove → Int

/-- The constructor arguments of the staged move generator. -/
structure GenInputs where
  opts : GlobalOptions
  vals : BasePiece → Int
  seeOracle : Move → Bool
  pos : Position
  killer : Move
  hashMove : Move
  prevMove : Option HistoryMove
  prevPrevMove : Option HistoryMove
  history : Option HistoryTable
  quiescence : Bool

/-- Noisy scoring of one generated move. -/
def scoreNoisyOne (vals : BasePiece → Int) (seeO : Move → Bool) (bd : PositionBoards)
    (sm : ScoredMove) : ScoredMove :=
  let srcValue := pieceValueMg vals (bd.pieceAt sm.move.src)
  let dstValue := if sm.move.mtype = .enPassant then vals .pawn
    else pieceValueMg vals (bd.pieceAt sm.move.dst)
  let s1 := (dstValue - srcValue) * 2000 + dstValue
  let s2 := if sm.move.mtype = .promotion then
      s1 + (PromoScores.getD sm.move.targetIdx 0) * 2000 * 2000
    else s1
  let s3 := if 0 < dstValue ∧ ¬ seeO sm.move then s2 - 8 * 2000 * 2000 else s2
  ⟨sm.move, s3⟩

/-- Quiet scoring of one generated move. -/
def scoreQuietOne (h : Option HistoryTable) (prevMove prevPrevMove : Option HistoryMove)
    (bd : PositionBoards) (sm : ScoredMove) : ScoredMove :=
  let base :=
    match h with
    | some tbl =>
      let hm := HistoryMove.fromBoards bd sm.move
      let b0 := tbl.entryScore hm
      let b1 := b0 + (match prevMove with | some pm => tbl.contScore pm hm | none => 0)
      b1 + (match prevPrevMove with | some pm => tbl.contScore pm hm | none => 0)
    | none => sm.score
  let s := if sm.move.mtype = .promotion then
      base + (PromoScores.getD sm.move.targetIdx 0) * 2000
    else base
  ⟨sm.move, s⟩

/-- Stable insertion into a list already sorted by the strict comparator:
the element goes before the first entry it beats and after every earlier
equal entry. -/
def insertStable (gt : ScoredMove → ScoredMove → Bool) (x : ScoredMove) :
    List ScoredMove → List ScoredMove
| [] => [x]
| y :: ys => if gt x y then x :: y :: ys else y :: insertStable gt x ys

/-- Stable sort with a strict comparator, modelling std::stable_sort: only
the comparator and stability are specified by the source. -/
def stableSortDesc (gt : ScoredMove → ScoredMove → Bool) (l : List ScoredMove) :
    List ScoredMove :=
  l.foldl (fun acc x => insertStable gt x acc) []

/-- The mutable state of the staged move generator. -/
structure GenState where
  stage : Nat
  moves : List ScoredMove
  idx : Nat
  noisyEnd : Nat
  goodNoisyEnd : Nat
  countermove : Move
deriving Repr

/-- Initial iterator state after the constructor. -/
def initGenState : GenState := ⟨stageStart, [], 0, 0, 0, NullMove⟩

/-- Default scored move used for out-of-range list reads. -/
def defSM : ScoredMove := ⟨NullMove, 0⟩

/-- The genNoisy step: generate, score, stable-sort descending and locate
the good noisy boundary. -/
def genNoisyStep (I : GenInputs) (st : GenState) : GenState :=
  let appended := st.moves ++ generateNoisy I.pos
  let scored := appended.take st.idx ++
    (appended.drop st.idx).map (scoreNoisyOne I.vals I.seeOracle I.pos.boards)
  let tail := stableSortDesc (fun a b => decide (a.score > b.score)) (scored.drop st.idx)
  let moves2 := scored.take st.idx ++ tail
  { st with
    moves := moves2
    noisyEnd := moves2.length
    goodNoisyEnd := st.idx + tail.findIdx (fun v => decide (v.score < -4 * 2000 * 2000)) }

/-- The genQuiet step: generate quiets, score them by history, and disable
the good noisy boundary. -/
def genQuietStep (I : GenInputs) (st : GenState) : GenState :=
  let appended := st.moves ++ generateQuiet I.opts I.pos
  let scored := appended.take st.noisyEnd ++
    (appended.drop st.noisyEnd).map
      (scoreQuietOne I.history I.prevMove I.prevPrevMove I.pos.boards)
  { st with moves := scored, goodNoisyEnd := 9999 }

/-- One emission from the move list: sequential in the good noisy stage,
in-place best-first selection in the later stages. -/
def findNextStep (st : GenState) : ScoredMove × GenState :=
  if st.stage = stageGoodNoisy then
    (st.moves.getD st.idx defSM, { st with idx := st.idx + 1 })
  else
    let best := (List.range st.moves.length).foldl (fun best i =>
      if st.idx < i ∧ (st.moves.getD i defSM).score > (st.moves.getD best defSM).score
      then i else best) st.idx
    let moves2 :=
      if best ≠ st.idx then
        (st.moves.set st.idx (st.moves.getD best defSM)).set best (st.moves.getD st.idx defSM)
      else st.moves
    (moves2.getD st.idx defSM, { st with moves := moves2, idx := st.idx + 1 })

/-- One call of MoveGenerator::next, with fuel bounding the internal loop. -/
def nextGo (I : GenInputs) : Nat → GenState → Move × GenState
| 0, st => (NullMove, st)
| fuel + 1, st =>
  if st.idx = st.moves.length ∨ st.idx = st.goodNoisyEnd then
    let stage := st.stage + 1
    if stage = stageHash then
      let st2 := { st with stage := stage }
      if I.hashMove ≠ NullMove then (I.hashMove, st2) else nextGo I fuel st2
    else if stage = stageGoodNoisy then
      let st2 := genNoisyStep I { st with stage := stage }
      let st3 := if I.quiescence then { st2 with stage := stageEnd } else st2
      nextGo I fuel st3
    else if stage = stageKiller then
      let st2 := { st with stage := stage }
      if I.killer ≠ NullMove ∧ I.killer ≠ I.hashMove ∧
         isPseudolegal I.opts I.pos I.killer then (I.killer, st2)
      else nextGo I fuel st2
    else if stage = stageCountermove then
      match I.history, I.prevMove with
      | some h, some pm =>
        let cm := h.counter pm
        let st2 := { st with stage := stage, countermove := cm }
        if cm ≠ NullMove ∧ cm ≠ I.hashMove ∧ cm ≠ I.killer ∧
           isPseudolegal I.opts I.pos cm then (cm, st2)
        else nextGo I fuel st2
      | _, _ => nextGo I fuel { st with stage := stage }
    else if stage = stageQuiet then
      nextGo I fuel (genQuietStep I { st with stage := stage })
    else if stage = stageBadNoisy then
      nextGo I fuel { st with stage := stage }
    else (NullMove, { st with stage := stage })
  else
    let fn := findNextStep st
    let m := fn.1.move
    if m ≠ I.hashMove ∧ m ≠ I.killer ∧ m ≠ fn.2.countermove then (m, fn.2)
    else nextGo I fuel fn.2

/-- One call of MoveGenerator::next with ample fuel. -/
def nextMove (I : GenInputs) (st : GenState) : Move × GenState := nextGo I 600 st

/-- The list of the first n moves returned by successive next calls. -/
def runGen (I : GenInputs) : Nat → GenState → List Move
| 0, _ => []
| n + 1, st =>
  let r := nextMove I st
  r.1 :: runGen I n r.2

/-- Shorthand tapered score constructor mirroring the source macro. -/
def S (mg eg : Int) : TaperedScore := ⟨mg, eg⟩

/-- Doubled pawn penalty. -/
def DoubledPawn : TaperedScore := S (-18) (-25)

/-- Doubled gapped pawn penalty. -/
def DoubledGappedPawn : TaperedScore := S (-4) (-18)

/-- Defended pawn bonus. -/
def PawnDefender : TaperedScore := S 17 14

/-- Open pawn penalty. -/
def OpenPawn : TaperedScore := S (-11) (-7)

/-- Phalanx bonus by relative rank. -/
def PawnPhalanx : List TaperedScore :=
  [S 0 0, S 3 5, S 22 10, S 25 25, S 44 61, S 118 136, S 23 259]

/-- Passed pawn bonus by relative rank. -/
def Passer : List TaperedScore :=
  [S 0 0, S 0 7, S (-4) 14, S (-13) 45, S 12 66, S 8 138, S 48 152]

/-- Defended passer bonus by relative rank. -/
def DefendedPasser : List TaperedScore :=
  [S 0 0, S 0 0, S 4 (-9), S 5 (-11), S 8 0, S 33 15, S 154 (-12)]

/-- Blocked passer penalty by relative rank. -/
def BlockedPasser : List TaperedScore :=
  [S 0 0, S (-9) (-3), S (-9) 3, S (-5) (-8), S (-13) (-24), S 5 (-87), S 29 (-138)]

/-- Candidate passer bonus by relative rank. -/
def CandidatePasser : List TaperedScore :=
  [S 0 0, S 7 (-3), S 1 0, S 3 12, S 20 16, S 46 60, S 0 0]

/-- Doubled passer adjustment. -/
def DoubledPasser : TaperedScore := S 17 (-26)

/-- Passer helper adjustment. -/
def PasserHelper : TaperedScore := S (-8) 13

/-- Pawn attacking a minor piece. -/
def PawnAttackingMinor : TaperedScore := S 52 17

/-- Pawn attacking a rook. -/
def PawnAttackingRook : TaperedScore := S 98 (-31)

/-- Pawn attacking a queen. -/
def PawnAttackingQueen : TaperedScore := S 57 (-16)

/-- Passer square rule bonus. -/
def PasserSquareRule : TaperedScore := S 12 102

/-- Minor piece behind an own pawn. -/
def MinorBehindPawn : TaperedScore := S 5 18

/-- Minor piece attacking a rook. -/
def MinorAttackingRook : TaperedScore := S 40 0

/-- Minor piece attacking a queen. -/
def MinorAttackingQueen : TaperedScore := S 27 3

/-- Knight outpost bonus. -/
def KnightOutpost : TaperedScore := S 25 16

/-- Bishop pair bonus. -/
def BishopPair : TaperedScore := S 26 59

/-- Rook on an open file. -/
def RookOnOpenFile : TaperedScore := S 41 2

/-- Rook on a semi-open file. -/
def RookOnSemiOpenFile : TaperedScore := S 15 9

/-- Rook supporting an own passer. -/
def RookSupportingPasser : TaperedScore := S 17 14

/-- Rook attacking a queen. -/
def RookAttackingQueen : TaperedScore := S 55 (-23)

/-- King on an open file. -/
def KingOnOpenFile : TaperedScore := S (-71) 2

/-- King on a semi-open file. -/
def KingOnSemiOpenFile : TaperedScore := S (-30) 18

/-- Knight mobility by attack count. -/
def KnightMobility : List TaperedScore :=
  [S (-42) (-12), S (-23) (-8), S (-12) (-5), S (-8) 0, S 3 3, S 8 11, S 16 10, S 20 9,
   S 36 (-8)]

/-- Bishop mobility by attack count. -/
def BishopMobility : List TaperedScore :=
  [S (-53) 5, S (-38) (-13), S (-26) (-23), S (-18) (-16), S (-9) (-8), S (-5) 0, S 0 7, S 3 9,
   S 2 13, S 11 9, S 21 3, S 46 0, S 7 24, S 58 (-10)]

/-- Rook mobility by attack count. -/
def RookMobility : List TaperedScore :=
  [S (-42) (-38), S (-29) (-15), S (-23) (-15), S (-18) (-11), S (-17) (-7), S (-11) (-4),
   S (-9) 2, S (-4) 4, S 5 7, S 11 9, S 14 12, S 23 14, S 25 18, S 42 11, S 34 11]

/-- Queen mobility by attack count. -/
def QueenMobility : List TaperedScore :=
  [S (-31) 63, S (-31) 222, S (-32) 89, S (-33) 53, S (-31) 49, S (-24) (-23), S (-20) (-58),
   S (-17) (-68), S (-14) (-66), S (-8) (-73), S (-7) (-59), S (-3) (-49), S (-4) (-45),
   S 4 (-40), S 5 (-29), S 0 (-14), S 0 (-4), S 16 (-18), S 12 (-5), S 27 (-9), S 33 (-5),
   S 64 (-19), S 44 (-3), S 83 (-12), S 35 4, S 41 0, S (-42) 62, S (-66) 57]

/-- Modelled from the spec: small constant tempo bonus for the side to move;
its value is not fixed by the sources in scope. -/
def Tempo : Int := 10

/-- Anti-passer mask of a square: the same and adjacent files strictly ahead. -/
def antiPasserMask (c : Color) (sq : Nat) : Nat :=
  let d0 := squareBit sq
  let d1 := d0 ||| shiftLeft d0 ||| shiftRight d0
  fillUpRel c (shiftUpRel c d1)

/-- Pawn helper mask of a square: the adjacent files from the square backward. -/
def pawnHelperMask (c : Color) (sq : Nat) : Nat :=
  let d0 := squareBit sq
  let d1 := shiftLeft d0 ||| shiftRight d0
  fillDownRel c (shiftDownRel c d1)

/-- Pawn attack set of one color over the boards. -/
def pawnAttacksOf (bd : PositionBoards) (c : Color) : Nat :=
  match c with
  | .black => shiftDownLeft (bd.pawns .black) ||| shiftDownRight (bd.pawns .black)
  | .white => shiftUpLeft (bd.pawns .white) ||| shiftUpRight (bd.pawns .white)

/-- Files holding no pawn of the color (its semi-open files). -/
def semiOpenOf (bd : PositionBoards) (c : Color) : Nat := compl64 (fillFile (bd.pawns c))

/-- Mobility squares of a color: not own pieces, not attacked by enemy pawns. -/
def availableOf (bd : PositionBoards) (c : Color) : Nat :=
  compl64 (bd.forColor c ||| pawnAttacksOf bd (oppColor c))

/-- Pawn structure evaluation of one side: the structure score and the
passer bitboard. -/
def evalPawnStructure (pos : Position) (us : Color) : TaperedScore × Nat :=
  let them := oppColor us
  let bd := pos.boards
  let ourPawns := bd.pawns us
  let theirPawns := bd.pawns them
  let oursPawnAttacks := pawnAttacksOf bd us
  let theirsSemiOpen := semiOpenOf bd them
  let up := shiftUpRel us ourPawns
  let doubledPawns := up &&& ourPawns
  let s0 := tsMul DoubledPawn (popcount doubledPawns : Int)
  let s1 := s0 + tsMul DoubledGappedPawn (popcount (shiftUpRel us up &&& ourPawns) : Int)
  let s2 := s1 + tsMul PawnDefender (popcount (oursPawnAttacks &&& ourPawns) : Int)
  let s3 := s2 + tsMul OpenPawn
    (popcount (ourPawns &&& compl64 (fillDownRel us theirPawns) &&& compl64 oursPawnAttacks) : Int)
  let s4 := (squaresList (ourPawns &&& shiftLeft ourPawns)).foldl (fun acc sq =>
      acc + PawnPhalanx.getD (relativeRank us (squareRank sq)) tsZero) s3
  (squaresList ourPawns).foldl (fun acc sq =>
      let pawn := squareBit sq
      let rank := relativeRank us (squareRank sq)
      let antiPassers := theirPawns &&& antiPasserMask us sq
      if antiPassers = 0 then
        let a1 := acc.1 + Passer.getD rank tsZero
        let a2 := if pawn &&& oursPawnAttacks ≠ 0 then a1 + DefendedPasser.getD rank tsZero
          else a1
        let a3 := if pawn &&& doubledPawns ≠ 0 then a2 + DoubledPasser else a2
        let helpers := ourPawns &&& pawnHelperMask us sq
        (a3 + tsMul PasserHelper (popcount helpers : Int), acc.2 ||| pawn)
      else if pawn &&& theirsSemiOpen ≠ 0 then
        let stop := shiftUpRel us pawn
        let levers := antiPassers &&& (shiftUpLeftRel us pawn ||| shiftUpRightRel us pawn)
        if antiPassers = levers then (acc.1 + CandidatePasser.getD rank tsZero, acc.2)
        else
          let telelevers := antiPassers &&& (shiftUpLeftRel us stop ||| shiftUpRightRel us stop)
          let helpers := ourPawns &&& (shiftLeft pawn ||| shiftRight pawn)
          if antiPassers = telelevers ∨ popcount telelevers ≤ popcount helpers then
            (acc.1 + CandidatePasser.getD rank tsZero, acc.2)
          else acc
      else acc)
    (s4, 0)

/-- Pawn evaluation of one side beyond the cached structure terms. -/
def evalPawns (pos : Position) (us : Color) (oursPawnAttacks passers : Nat) : TaperedScore :=
  let them := oppColor us
  let bd := pos.boards
  let p0 := tsMul PawnAttackingMinor (popcount (oursPawnAttacks &&& bd.minorsC them) : Int)
  let p1 := p0 + tsMul PawnAttackingRook (popcount (oursPawnAttacks &&& bd.rooks them) : Int)
  let p2 := p1 + tsMul PawnAttackingQueen (popcount (oursPawnAttacks &&& bd.queens them) : Int)
  (squaresList passers).foldl (fun acc sq =>
      let passer := squareBit sq
      let rank := relativeRank us (squareRank sq)
      let promotion := toSquare (relativeRank us 7) (squareFile sq)
      let a1 := if bd.nonPkC them = 0 ∧
          min 5 (chebyshev sq promotion) + (if us = pos.toMove then 1 else 0)
            < chebyshev (pos.kingSq them) promotion then acc + PasserSquareRule
        else acc
      if shiftUpRel us passer &&& bd.occupancy ≠ 0 then a1 + BlockedPasser.getD rank tsZero
      else a1)
    p2

/-- Knight evaluation of one side: the piece score and the mobility score. -/
def evalKnights (pos : Position) (us : Color) (oursPawnAttacks available : Nat) :
    TaperedScore × TaperedScore :=
  let them := oppColor us
  let bd := pos.boards
  let knights := bd.knights us
  if knights = 0 then (tsZero, tsZero)
  else
    let k0 := tsMul MinorBehindPawn (popcount (shiftUpRel us knights &&& bd.pawns us) : Int)
    (squaresList knights).foldl (fun acc sq =>
        let knight := squareBit sq
        let a1 := if antiPasserMask us sq &&& compl64 (fileBB (squareFile sq)) &&&
              bd.pawns them = 0 ∧ knight &&& oursPawnAttacks ≠ 0 then acc.1 + KnightOutpost
          else acc.1
        let attacks := knightAttacks sq
        let a2 := a1 + tsMul MinorAttackingRook (popcount (attacks &&& bd.rooks them) : Int)
        let a3 := a2 + tsMul MinorAttackingQueen (popcount (attacks &&& bd.queens them) : Int)
        (a3, acc.2 + KnightMobility.getD (popcount (attacks &&& available)) tsZero))
      (k0, tsZero)

/-- Bishop evaluation of one side: the piece score and the mobility score. -/
def evalBishops (pos : Position) (us : Color) (available : Nat) :
    TaperedScore × TaperedScore :=
  let them := oppColor us
  let bd := pos.boards
  let bishops := bd.bishops us
  if bishops = 0 then (tsZero, tsZero)
  else
    let b0 := tsMul MinorBehindPawn (popcount (shiftUpRel us bishops &&& bd.pawns us) : Int)
    let b1 := if bishops &&& DarkSquares ≠ 0 ∧ bishops &&& LightSquares ≠ 0 then
        b0 + BishopPair
      else b0
    let occupancy := bd.occupancy
    let xrayOcc := occupancy ^^^ bd.bishops us ^^^ bd.queens us
    (squaresList bishops).foldl (fun acc sq =>
        let attacks := bishopAttacks sq occupancy
        let a1 := acc.1 + tsMul MinorAttackingRook (popcount (attacks &&& bd.rooks them) : Int)
        let a2 := a1 + tsMul MinorAttackingQueen (popcount (attacks &&& bd.queens them) : Int)
        let mobilityAttacks := bishopAttacks sq xrayOcc
        (a2, acc.2 + BishopMobility.getD (popcount (mobilityAttacks &&& available)) tsZero))
      (b1, tsZero)

/-- Rook evaluation of one side: the piece score and the mobility score. -/
def evalRooks (pos : Position) (us : Color) (semiOpen passers available openFiles : Nat) :
    TaperedScore × TaperedScore :=
  let them := oppColor us
  let bd := pos.boards
  let rooks := bd.rooks us
  if rooks = 0 then (tsZero, tsZero)
  else
    let occupancy := bd.occupancy
    let xrayOcc := occupancy ^^^ bd.rooks us ^^^ bd.queens us
    (squaresList rooks).foldl (fun acc sq =>
        let rook := squareBit sq
        let a1 := if rook &&& openFiles ≠ 0 then acc.1 + RookOnOpenFile
          else if rook &&& semiOpen ≠ 0 then acc.1 + RookOnSemiOpenFile
          else acc.1
        let a2 := if fillUpRel us rook &&& passers ≠ 0 then a1 + RookSupportingPasser else a1
        let attacks := rookAttacks sq occupancy
        let a3 := a2 + tsMul RookAttackingQueen (popcount (attacks &&& bd.queens them) : Int)
        let mobilityAttacks := rookAttacks sq xrayOcc
        (a3, acc.2 + RookMobility.getD (popcount (mobilityAttacks &&& available)) tsZero))
      (tsZero, tsZero)

/-- Queen evaluation of one side: only the mobility score. -/
def evalQueens (pos : Position) (us : Color) (available : Nat) : TaperedScore :=
  let bd := pos.boards
  let queens := bd.queens us
  if queens = 0 then tsZero
  else
    let occupancy := bd.occupancy
    let xrayOcc := occupancy ^^^ bd.bishops us ^^^ bd.rooks us ^^^ bd.queens us
    (squaresList queens).foldl (fun acc sq =>
        acc + QueenMobility.getD (popcount (queenAttacks sq xrayOcc &&& available)) tsZero)
      tsZero

/-- King file-safety evaluation of one side. -/
def evalKing (pos : Position) (us : Color) (semiOpen openFiles : Nat) : TaperedScore :=
  let king := pos.boards.kings us
  if king &&& openFiles ≠ 0 then KingOnOpenFile
  else if king &&& semiOpen ≠ 0 then KingOnSemiOpenFile
  else tsZero

/-- One entry of the pawn cache. -/
structure PawnCacheEntry where
  key : Nat
  eval : TaperedScore
  passers : Nat
deriving DecidableEq, Repr

/-- Modelled from the spec: the direct-mapped pawn cache, a power-of-two
table indexed by the pawn key masked to the table size; the table sources
are not in scope. -/
structure PawnCache where
  mask : Nat
  table : Nat → PawnCacheEntry

/-- Probe the entry at index key AND mask. -/
def PawnCache.probe (c : PawnCache) (key : Nat) : PawnCacheEntry := c.table (key &&& c.mask)

/-- Overwrite the probed entry. -/
def PawnCache.write (c : PawnCache) (key : Nat) (e : PawnCacheEntry) : PawnCache :=
  ⟨c.mask, fun i => if i = key &&& c.mask then e else c.table i⟩

/-- The pawn-structure phase of the evaluator: the per-side structure scores,
the per-side passer bitboards, the cache hit flag and the updated cache. -/
def pawnStructurePhase (pos : Position) (cache : Option PawnCache) :
    TaperedScore × TaperedScore × Nat × Nat × Bool × Option PawnCache :=
  let bd := pos.boards
  match cache with
  | some c =>
    let e := c.probe pos.pawnKey
    if e.key = pos.pawnKey then
      (tsZero, e.eval, e.passers &&& bd.blackOcc, e.passers &&& bd.whiteOcc, true, some c)
    else
      let rb := evalPawnStructure pos .black
      let rw := evalPawnStructure pos .white
      (rb.1, rw.1, rb.2, rw.2, false,
        some (c.write pos.pawnKey ⟨pos.pawnKey, rw.1 - rb.1, rb.2 ||| rw.2⟩))
  | none =>
    let rb := evalPawnStructure pos .black
    let rw := evalPawnStructure pos .white
    (rb.1, rw.1, rb.2, rw.2, false, none)

/-- All evaluation terms beyond the pawn structure, as the white-minus-black
tapered sum.  The hanging-and-pinned and king-safety functions of the source
are empty stubs and contribute zero. -/
def evalRest (pos : Position) (bPassers wPassers : Nat) : TaperedScore :=
  let bd := pos.boards
  let blackPA := pawnAttacksOf bd .black
  let whitePA := pawnAttacksOf bd .white
  let blackSemiOpen := semiOpenOf bd .black
  let whiteSemiOpen := semiOpenOf bd .white
  let blackAvailable := availableOf bd .black
  let whiteAvailable := availableOf bd .white
  let openFiles := blackSemiOpen &&& whiteSemiOpen
  let pawnsB := evalPawns pos .black blackPA bPassers
  let pawnsW := evalPawns pos .white whitePA wPassers
  let knB := evalKnights pos .black blackPA blackAvailable
  let knW := evalKnights pos .white whitePA whiteAvailable
  let biB := evalBishops pos .black blackAvailable
  let biW := evalBishops pos .white whiteAvailable
  let roB := evalRooks pos .black blackSemiOpen bPassers blackAvailable openFiles
  let roW := evalRooks pos .white whiteSemiOpen wPassers whiteAvailable openFiles
  let quB := evalQueens pos .black blackAvailable
  let quW := evalQueens pos .white whiteAvailable
  let kiB := evalKing pos .black blackSemiOpen openFiles
  let kiW := evalKing pos .white whiteSemiOpen openFiles
  let mobilityB := knB.2 + biB.2 + roB.2 + quB
  let mobilityW := knW.2 + biW.2 + roW.2 + quW
  (pawnsW - pawnsB) + (knW.1 - knB.1) + (biW.1 - biB.1) + (roW.1 - roB.1) +
    (kiW - kiB) + (mobilityW - mobilityB)

/-- The result of one evaluator run. -/
structure EvalResult where
  total : TaperedScore
  final : Int
  cachedPawnStructureEval : Bool
  cacheOut : Option PawnCache

/-- One run of the Evaluator constructor: total the terms, interpolate by
phase, scale by the halfmove clock, halve three times when likely drawn. -/
def evaluator (pos : Position) (cache : Option PawnCache) : EvalResult :=
  let ps := pawnStructurePhase pos cache
  let psB := ps.1
  let psW := ps.2.1
  let bPassers := ps.2.2.1
  let wPassers := ps.2.2.2.1
  let cached := ps.2.2.2.2.1
  let cacheOut := ps.2.2.2.2.2
  let total := pos.material + (psW - psB) + evalRest pos bPassers wPassers
  let f0 := pos.interpScore total
  let f1 := Int.tdiv (f0 * (200 - (pos.halfmove : Int))) 200
  let f2 := if pos.isLikelyDrawn then Int.tdiv f1 8 else f1
  ⟨total, f2, cached, cacheOut⟩

/-- The white-minus-black tapered total of one evaluator run. -/
def evalTotal (pos : Position) (cache : Option PawnCache) : TaperedScore :=
  (evaluator pos cache).total

/-- Static evaluation from the perspective of the side to move. -/
def staticEval (pos : Position) (cache : Option PawnCache) : Int :=
  (evaluator pos cache).final * (if pos.toMove = .black then -1 else 1) + Tempo

/-- Value of 2 to the 64, the u64 modulus. -/
def twoPow64 : Nat := 2 ^ 64

/-- Value of 2 to the 32, the u32 modulus. -/
def twoPow32 : Nat := 2 ^ 32

/-- Rotate a u64 left by k bits (0 < k < 64). -/
def rotl64 (x k : Nat) : Nat := ((x <<< k) ||| (x >>> (64 - k))) &&& U64Mask

/-- Wrapping u64 subtraction. -/
def sub64 (x y : Nat) : Nat := (x + twoPow64 - y % twoPow64) % twoPow64

/-- The internal state of the JSF 64-bit generator. -/
structure Jsf64 where
  a : Nat
  b : Nat
  c : Nat
  d : Nat
deriving DecidableEq, Repr

/-- One step of the JSF generator: the output word and the next state. -/
def Jsf64.nextU64 (s : Jsf64) : Nat × Jsf64 :=
  let e := sub64 s.a (rotl64 s.b 7)
  let a := (s.b ^^^ rotl64 s.c 13) &&& U64Mask
  let b := (s.c + rotl64 s.d 37) % twoPow64
  let c := (s.d + e) % twoPow64
  let d := (e + a) % twoPow64
  (d, ⟨a, b, c, d⟩)

/-- Discard n outputs. -/
def jsfWarm : Nat → Jsf64 → Jsf64
| 0, s => s
| n + 1, s => jsfWarm n (s.nextU64).2

/-- Seed the generator and run the 20 warmup rounds of the constructor. -/
def Jsf64.init (seed : Nat) : Jsf64 :=
  jsfWarm 20 ⟨0xF1EA5EED, seed % twoPow64, seed % twoPow64, seed % twoPow64⟩

/-- The unbounded 32-bit output: the top half of the next 64-bit word. -/
def Jsf64.nextU32 (s : Jsf64) : Nat × Jsf64 :=
  let r := s.nextU64
  (r.1 >>> 32, r.2)

/-- The rejection threshold of the bounded draw: unsigned negation of the
bound with the two conditional reductions of the source. -/
def boundT (bound : Nat) : Nat :=
  let t0 := (twoPow32 - bound) % twoPow32
  if bound ≤ t0 then
    let t1 := t0 - bound
    if bound ≤ t1 then t1 % bound else t1
  else t0

/-- The rejection loop of the bounded draw, with fuel; none on exhaustion. -/
def nextU32BoundedGo (bound t : Nat) : Nat → Jsf64 → Option (Nat × Jsf64)
| 0, _ => none
| fuel + 1, s =>
  let r := s.nextU32
  let m := r.1 * bound
  let l := m % twoPow32
  if l < t then nextU32BoundedGo bound t fuel r.2
  else some ((m >>> 32), r.2)

/-- The bounded 32-bit draw by the multiply-shift method with rejection. -/
def Jsf64.nextU32Bounded (bound : Nat) (fuel : Nat) (s : Jsf64) : Option (Nat × Jsf64) :=
  if bound = 0 then some (0, s)
  else
    let r := s.nextU32
    let m := r.1 * bound
    let l := m % twoPow32
    if l < bound then
      let t := boundT bound
      if l < t then nextU32BoundedGo bound t fuel r.2
      else some ((m >>> 32), r.2)
    else some ((m >>> 32), r.2)

/-- Coefficients of the win-rate center polynomial, the source double
literals read as exact rationals. -/
def winRateAs : List ℚ := [-16.47359643, 125.09292680, -150.78265049, 133.46169058]

/-- Coefficients of the win-rate width polynomial. -/
def winRateBs : List ℚ := [-10.64392182, 68.80469735, -98.63536151, 100.12391368]

/-- Modelled from the spec: the UCI normalization constant of the missing
uci.h header, pinned by the static assertion of the source to the truncated
sum of the center polynomial coefficients. -/
def NormalizationK : Int := 91

/-- Truncation of a rational toward zero, the static_cast of the source. -/
def truncToInt (q : ℚ) : Int := if q < 0 then -Int.floor (-q) else Int.floor q

/-- The polynomial argument of the win-rate model. -/
def winRateArg (ply : Nat) : ℚ := min (240 : ℚ) (ply : ℚ) / 64

/-- The center polynomial of the win-rate model evaluated at a ply count.
The exponential sigmoid itself operates on doubles and is not modelled. -/
def winRateCenter (ply : Nat) : ℚ :=
  let m := winRateArg ply
  ((winRateAs.getD 0 0 * m + winRateAs.getD 1 0) * m + winRateAs.getD 2 0) * m +
    winRateAs.getD 3 0

/-- The bitboard of the pawn a pending en passant capture would remove. -/
def epPawnOf (pos : Position) : Nat := (epMasks pos).2

/-- Noisy move score as the specification words it: victim minus attacker
times 2000 plus victim, the promotion bias, and the losing-capture penalty.
Stated from the spec for comparison against the source scoring. -/
def noisyScoreSpec (vals : BasePiece → Int) (seeO : Move → Bool) (bd : PositionBoards)
    (m : Move) : Int :=
  let victim := if m.mtype = .enPassant then vals .pawn else pieceValueMg vals (bd.pieceAt m.dst)
  let attacker := pieceValueMg vals (bd.pieceAt m.src)
  (victim - attacker) * 2000 + victim +
    (if m.mtype = .promotion then (PromoScores.getD m.targetIdx 0) * 2000 * 2000 else 0) -
    (if 0 < victim ∧ ¬ seeO m then 8 * 2000 * 2000 else 0)

/-- Insufficient material as the specification words it: exactly KK, a lone
minor against a bare king, or KBKB with the bishops on opposite-colored
squares.  Stated from the spec for comparison against the source test. -/
def insufficientMaterialSpec (bd : PositionBoards) : Prop :=
  bd.pawnB = 0 ∧
  (bd.nonPk = 0 ∨
   (∃ c, bd.nonPkC (oppColor c) = 0 ∧
      ∃ s, s < 64 ∧ bd.nonPkC c = squareBit s ∧ (bd.knightB ||| bd.bishopB).testBit s) ∨
   (∃ sb sw, sb < 64 ∧ sw < 64 ∧ bd.nonPkC .black = squareBit sb ∧
      bd.nonPkC .white = squareBit sw ∧ bd.bishopB.testBit sb ∧ bd.bishopB.testBit sw ∧
      (squareFile sb + squareRank sb) % 2 ≠ (squareFile sw + squareRank sw) % 2))

/-- Draw detection as the claim words it: the 50 move rule, the key seen the
required number of times in the history counting the current position, or
insufficient material. -/
def isDrawnSpec (pos : Position) (threefold : Bool) : Prop :=
  100 ≤ pos.halfmove ∨
  (if threefold then 3 else 2) ≤ List.count pos.zkey (pos.prevKeys ++ [pos.zkey]) ∨
  insufficientMaterialSpec pos.boards

/-- Concrete midgame piece values used to instantiate the value parameter. -/
def stdVals : BasePiece → Int
| .pawn => 100
| .knight => 300
| .bishop => 320
| .rook => 500
| .queen => 900
| .king => 0

/-- The standard starting position (keys and material immaterial here). -/
def posStart : Position := {
  boards := ⟨0xFFFF000000000000, 0xFFFF, 0x00FF00000000FF00, 0x4200000000000042,
             0x2400000000000024, 0x8100000000000081, 0x0800000000000008,
             0x1000000000000010⟩
  blackToMove := false
  enPassantSq := none
  checkers := 0
  kingSqB := 60
  kingSqW := 4
  castlingRooks := ⟨some 63, some 56, some 7, some 0⟩
  halfmove := 0
  zkey := 11
  prevKeys := []
  material := ⟨0, 0⟩
  phase := 24
  pawnKey := 7
  fullmove := 1 }

/-- White Ke1 and Pa4 against black Kh8, Rb5 and Nf3; white to move and in
single check by the knight on f3. -/
def posA : Position := {
  boards := ⟨2 ^ 63 + 2 ^ 33 + 2 ^ 21, 2 ^ 4 + 2 ^ 24, 2 ^ 24, 2 ^ 21, 0, 2 ^ 33, 0,
             2 ^ 4 + 2 ^ 63⟩
  blackToMove := false
  enPassantSq := none
  checkers := 2 ^ 21
  kingSqB := 63
  kingSqW := 4
  castlingRooks := ⟨none, none, none, none⟩
  halfmove := 0
  zkey := 12
  prevKeys := []
  material := ⟨0, 0⟩
  phase := 4
  pawnKey := 8
  fullmove := 1 }

/-- White Ka1 and Pb7 against black Kh8 and Ra8; white to move and in single
check by the rook on a8, capturable by an underpromotion. -/
def posB : Position := {
  boards := ⟨2 ^ 63 + 2 ^ 56, 2 ^ 0 + 2 ^ 49, 2 ^ 49, 0, 0, 2 ^ 56, 0, 2 ^ 0 + 2 ^ 63⟩
  blackToMove := false
  enPassantSq := none
  checkers := 2 ^ 56
  kingSqB := 63
  kingSqW := 0
  castlingRooks := ⟨none, none, none, none⟩
  halfmove := 0
  zkey := 13
  prevKeys := []
  material := ⟨0, 0⟩
  phase := 2
  pawnKey := 9
  fullmove := 1 }

/-- White Ke1 against black Kh8, Re8 and Ba5; white to move and in double
check. -/
def posC : Position := {
  boards := ⟨2 ^ 63 + 2 ^ 60 + 2 ^ 32, 2 ^ 4, 0, 0, 2 ^ 32, 2 ^ 60, 0, 2 ^ 4 + 2 ^ 63⟩
  blackToMove := false
  enPassantSq := none
  checkers := 2 ^ 60 + 2 ^ 32
  kingSqB := 63
  kingSqW := 4
  castlingRooks := ⟨none, none, none, none⟩
  halfmove := 0
  zkey := 14
  prevKeys := []
  material := ⟨0, 0⟩
  phase := 4
  pawnKey := 10
  fullmove := 1 }

/-- White Ke1 and Pa4 against black Kh8 and Rb5; white to move, no check. -/
def posD : Position := {
  boards := ⟨2 ^ 63 + 2 ^ 33, 2 ^ 4 + 2 ^ 24, 2 ^ 24, 0, 0, 2 ^ 33, 0, 2 ^ 4 + 2 ^ 63⟩
  blackToMove := false
  enPassantSq := none
  checkers := 0
  kingSqB := 63
  kingSqW := 4
  castlingRooks := ⟨none, none, none, none⟩
  halfmove := 0
  zkey := 15
  prevKeys := []
  material := ⟨0, 0⟩
  phase := 2
  pawnKey := 11
  fullmove := 1 }

/-- White Ka1 and Bc1 against black Kh8 and Ba8: a KBKB position with the
bishops on opposite-colored squares. -/
def posE : Position := {
  boards := ⟨2 ^ 63 + 2 ^ 56, 2 ^ 0 + 2 ^ 2, 0, 0, 2 ^ 2 + 2 ^ 56, 0, 0, 2 ^ 0 + 2 ^ 63⟩
  blackToMove := false
  enPassantSq := none
  checkers := 0
  kingSqB := 63
  kingSqW := 0
  castlingRooks := ⟨none, none, none, none⟩
  halfmove := 3
  zkey := 16
  prevKeys := [5, 16, 9]
  material := ⟨0, 0⟩
  phase := 2
  pawnKey := 12
  fullmove := 1 }

/-- A history table whose countermove is always the capture a4 takes b5. -/
def histD : HistoryTable := ⟨fun _ => 0, fun _ => Move.standard 24 33, fun _ _ => 0⟩

/-- Iterator inputs over posD with the noisy capture stored as the
countermove of the previous move. -/
def inD : GenInputs :=
  ⟨⟨false, true⟩, stdVals, fun _ => true, posD, NullMove, NullMove,
   some ⟨none, 0, 0⟩, none, some histD, false⟩

/-- Iterator inputs over the starting position with the geometrically
impossible pawn move e2 to e5 stored as the hash move. -/
def c4Inputs : GenInputs :=
  ⟨⟨false, true⟩, stdVals, fun _ => true, posStart, NullMove, Move.standard 12 36,
   none, none, none, false⟩

/-- A direct-mapped pawn cache whose entries all hold key 1. -/
def emptyCache : PawnCache := ⟨15, fun _ => ⟨1, tsZero, 0⟩⟩

theorem lt64_and_left {x y : Nat} (h : x < twoPow64) : x &&& y < twoPow64 :=
  lt_of_le_of_lt Nat.and_le_left h

theorem lt64_and_right {x y : Nat} (h : y < twoPow64) : x &&& y < twoPow64 :=
  lt_of_le_of_lt Nat.and_le_right h

theorem squareBit_eq_pow (s : Nat) : squareBit s = 2 ^ s := by
  unfold squareBit; rw [Nat.shiftLeft_eq, one_mul]

theorem squareBit_lt {s : Nat} (h : s < 64) : squareBit s < twoPow64 := by
  rw [squareBit_eq_pow]
  exact Nat.pow_lt_pow_right (by norm_num) h

theorem testBit_squareBit {s i : Nat} : (squareBit s).testBit i = decide (s = i) := by
  rw [squareBit_eq_pow]; exact Nat.testBit_two_pow

theorem twoPow64_pos : 0 < twoPow64 := by norm_num [twoPow64]

theorem offsetSq_lt {sq : Nat} {df dr : Int} {s : Nat} (h : offsetSq sq df dr = some s) :
    s < 64 := by
  simp only [offsetSq] at h
  split at h
  · rename_i hcond
    obtain ⟨h1, h2, h3, h4⟩ := hcond
    have := Option.some.inj h
    omega
  · exact absurd h (by simp)

theorem stepAttacksGo_lt (sq : Nat) (offs : List (Int × Int)) :
    ∀ acc : Nat, acc < twoPow64 →
      offs.foldl (fun acc o =>
        match offsetSq sq o.1 o.2 with
        | some s => acc ||| squareBit s
        | none => acc) acc < twoPow64 := by
  induction offs with
  | nil => intro acc h; exact h
  | cons o rest ih =>
    intro acc h
    simp only [List.foldl_cons]
    apply ih
    cases ho : offsetSq sq o.1 o.2 with
    | none => simpa [ho] using h
    | some s =>
      simp only [ho]
      exact Nat.or_lt_two_pow h (squareBit_lt (offsetSq_lt ho))

theorem stepAttacks_lt (sq : Nat) (offs : List (Int × Int)) : stepAttacks sq offs < twoPow64 :=
  stepAttacksGo_lt sq offs 0 twoPow64_pos

theorem knightAttacks_lt (sq : Nat) : knightAttacks sq < twoPow64 := stepAttacks_lt sq _

theorem kingAttacks_lt (sq : Nat) : kingAttacks sq < twoPow64 := stepAttacks_lt sq _

theorem walkDir_lt (occ : Nat) (df dr : Int) :
    ∀ fuel sq, walkDir occ df dr fuel sq < twoPow64 := by
  intro fuel
  induction fuel with
  | zero => intro sq; exact twoPow64_pos
  | succ n ih =>
    intro sq
    unfold walkDir
    cases ho : offsetSq sq df dr with
    | none => simp only [ho]; exact twoPow64_pos
    | some s =>
      simp only [ho]
      apply Nat.or_lt_two_pow (squareBit_lt (offsetSq_lt ho))
      split
      · exact twoPow64_pos
      · exact ih s

theorem rookAttacks_lt (sq occ : Nat) : rookAttacks sq occ < twoPow64 := by
  unfold rookAttacks
  exact Nat.or_lt_two_pow (Nat.or_lt_two_pow (Nat.or_lt_two_pow (walkDir_lt _ _ _ _ _)
    (walkDir_lt _ _ _ _ _)) (walkDir_lt _ _ _ _ _)) (walkDir_lt _ _ _ _ _)

theorem bishopAttacks_lt (sq occ : Nat) : bishopAttacks sq occ < twoPow64 := by
  unfold bishopAttacks
  exact Nat.or_lt_two_pow (Nat.or_lt_two_pow (Nat.or_lt_two_pow (walkDir_lt _ _ _ _ _)
    (walkDir_lt _ _ _ _ _)) (walkDir_lt _ _ _ _ _)) (walkDir_lt _ _ _ _ _)

theorem lowestSquareGo_testBit :
    ∀ fuel b, b ≠ 0 → b < 2 ^ fuel → b.testBit (lowestSquareGo fuel b) = true := by
  intro fuel
  induction fuel with
  | zero => intro b h0 hlt; interval_cases b; exact absurd rfl h0
  | succ n ih =>
    intro b h0 hlt
    unfold lowestSquareGo
    split
    · rename_i hodd
      simpa [Nat.testBit_zero] using hodd
    · rename_i heven
      have h2 : b / 2 ≠ 0 := by omega
      have hlt2 : b / 2 < 2 ^ n := by
        rw [Nat.div_lt_iff_lt_mul (by norm_num)]
        calc b < 2 ^ (n + 1) := hlt
        _ = 2 ^ n * 2 := by ring
      have := ih (b / 2) h2 hlt2
      rw [Nat.add_comm 1 (lowestSquareGo n (b / 2))]
      rwa [Nat.testBit_succ]

theorem lowestSquare_testBit {b : Nat} (h0 : b ≠ 0) (h64 : b < twoPow64) :
    b.testBit (lowestSquare b) = true :=
  lowestSquareGo_testBit 64 b h0 h64

theorem popLowest_testBit {b i : Nat} (h : (popLowest b).testBit i = true) :
    b.testBit i = true := by
  unfold popLowest at h
  rw [Nat.testBit_land, Bool.and_eq_true] at h
  exact h.1

theorem mem_squaresListGo :
    ∀ fuel b s, b < twoPow64 → s ∈ squaresListGo fuel b → b.testBit s = true := by
  intro fuel
  induction fuel with
  | zero => intro b s _ h; simp [squaresListGo] at h
  | succ n ih =>
    intro b s h64 h
    unfold squaresListGo at h
    split at h
    · simp at h
    · rename_i h0
      rcases List.mem_cons.mp h with h1 | h1
      · subst h1; exact lowestSquare_testBit h0 h64
      · exact popLowest_testBit
          (ih (popLowest b) s (lt_of_le_of_lt Nat.and_le_left h64) h1)

theorem mem_squaresList {b s : Nat} (h64 : b < twoPow64) (h : s ∈ squaresList b) :
    b.testBit s = true :=
  mem_squaresListGo 64 b s h64 h

theorem testBit_lt_64 {b i : Nat} (h64 : b < twoPow64) (h : b.testBit i = true) : i < 64 := by
  by_contra hge
  push_neg at hge
  have : b < 2 ^ i := lt_of_lt_of_le h64 (Nat.pow_le_pow_right (by norm_num) hge)
  rw [Nat.testBit_lt_two_pow this] at h
  exact Bool.false_ne_true h

theorem testBit_land_left {x y i : Nat} (h : (x &&& y).testBit i = true) :
    x.testBit i = true := by
  rw [Nat.testBit_land, Bool.and_eq_true] at h; exact h.1

theorem testBit_land_right {x y i : Nat} (h : (x &&& y).testBit i = true) :
    y.testBit i = true := by
  rw [Nat.testBit_land, Bool.and_eq_true] at h; exact h.2

theorem shiftUpRel_src {c : Color} {b d : Nat} (h : (shiftUpRel c b).testBit d = true) :
    ∃ s : Nat, (s : Int) = (d : Int) - upOff c ∧ b.testBit s = true := by
  cases c with
  | white =>
    unfold shiftUpRel shiftUp at h
    have h1 := testBit_land_left h
    rw [Nat.testBit_shiftLeft, Bool.and_eq_true, decide_eq_true_eq] at h1
    exact ⟨d - 8, by simp [upOff]; omega, h1.2⟩
  | black =>
    unfold shiftUpRel shiftDown at h
    rw [Nat.testBit_shiftRight] at h
    exact ⟨8 + d, by simp [upOff]; omega, h⟩

theorem shiftUpLeftRel_src {c : Color} {b d : Nat}
    (h : (shiftUpLeftRel c b).testBit d = true) :
    ∃ s : Nat, (s : Int) = (d : Int) - upLeftOff c ∧ b.testBit s = true := by
  cases c with
  | white =>
    unfold shiftUpLeftRel shiftUpLeft at h
    have h1 := testBit_land_left (testBit_land_left h)
    rw [Nat.testBit_shiftLeft, Bool.and_eq_true, decide_eq_true_eq] at h1
    exact ⟨d - 7, by simp [upLeftOff]; omega, h1.2⟩
  | black =>
    unfold shiftUpLeftRel shiftDownLeft at h
    have h1 := testBit_land_left h
    rw [Nat.testBit_shiftRight] at h1
    exact ⟨9 + d, by simp [upLeftOff]; omega, h1⟩

theorem shiftUpRightRel_src {c : Color} {b d : Nat}
    (h : (shiftUpRightRel c b).testBit d = true) :
    ∃ s : Nat, (s : Int) = (d : Int) - upRightOff c ∧ b.testBit s = true := by
  cases c with
  | white =>
    unfold shiftUpRightRel shiftUpRight at h
    have h1 := testBit_land_left (testBit_land_left h)
    rw [Nat.testBit_shiftLeft, Bool.and_eq_true, decide_eq_true_eq] at h1
    exact ⟨d - 9, by simp [upRightOff]; omega, h1.2⟩
  | black =>
    unfold shiftUpRightRel shiftDownRight at h
    have h1 := testBit_land_left h
    rw [Nat.testBit_shiftRight] at h1
    exact ⟨7 + d, by simp [upRightOff]; omega, h1⟩

theorem mem_pushStandardsOff {off : Int} {board : Nat} {sm : ScoredMove}
    (h64 : board < twoPow64) (h : sm ∈ pushStandardsOff off board) :
    sm.move.mtype = .standard ∧ board.testBit sm.move.dst = true ∧
      sm.move.src = ((sm.move.dst : Int) - off).toNat := by
  obtain ⟨d, hd, hsm⟩ := List.mem_map.mp h
  subst hsm
  exact ⟨rfl, mem_squaresList h64 hd, rfl⟩

theorem mem_pushStandardsFrom {src board : Nat} {sm : ScoredMove}
    (h64 : board < twoPow64) (h : sm ∈ pushStandardsFrom src board) :
    sm.move.mtype = .standard ∧ sm.move.src = src ∧ board.testBit sm.move.dst = true := by
  obtain ⟨d, hd, hsm⟩ := List.mem_map.mp h
  subst hsm
  exact ⟨rfl, rfl, mem_squaresList h64 hd⟩

theorem mem_pushStandardsFrom_src {src board : Nat} {sm : ScoredMove}
    (h : sm ∈ pushStandardsFrom src board) : sm.move.src = src := by
  obtain ⟨d, _, hsm⟩ := List.mem_map.mp h
  subst hsm
  rfl

theorem mem_pushQueenPromotions {off : Int} {board : Nat} {sm : ScoredMove}
    (h64 : board < twoPow64) (h : sm ∈ pushQueenPromotions off board) :
    sm.move.mtype = .promotion ∧ board.testBit sm.move.dst = true ∧
      sm.move.src = ((sm.move.dst : Int) - off).toNat := by
  obtain ⟨d, hd, hsm⟩ := List.mem_map.mp h
  subst hsm
  exact ⟨rfl, mem_squaresList h64 hd, rfl⟩

theorem mem_pushUnderpromotions {opts : GlobalOptions} {off : Int} {board : Nat}
    {sm : ScoredMove} (h64 : board < twoPow64) (h : sm ∈ pushUnderpromotions opts off board) :
    sm.move.mtype = .promotion ∧ board.testBit sm.move.dst = true ∧
      sm.move.src = ((sm.move.dst : Int) - off).toNat := by
  obtain ⟨d, hd, hsm⟩ := List.mem_flatMap.mp h
  have hbit := mem_squaresList h64 hd
  rcases List.mem_cons.mp hsm with h1 | h1
  · subst h1; exact ⟨rfl, hbit, rfl⟩
  · split at h1
    · rcases List.mem_cons.mp h1 with h2 | h2
      · subst h2; exact ⟨rfl, hbit, rfl⟩
      · rcases List.mem_cons.mp h2 with h3 | h3
        · subst h3; exact ⟨rfl, hbit, rfl⟩
        · simp at h3
    · simp at h1

theorem mem_pushEnPassants {off : Int} {board : Nat} {sm : ScoredMove}
    (h64 : board < twoPow64) (h : sm ∈ pushEnPassants off board) :
    sm.move.mtype = .enPassant ∧ board.testBit sm.move.dst = true ∧
      sm.move.src = ((sm.move.dst : Int) - off).toNat := by
  obtain ⟨d, hd, hsm⟩ := List.mem_map.mp h
  subst hsm
  exact ⟨rfl, mem_squaresList h64 hd, rfl⟩

theorem mem_pushCastling {src dst : Nat} {sm : ScoredMove} (h : sm ∈ pushCastling src dst) :
    sm.move.mtype = .castling ∧ sm.move.src = src := by
  rcases List.mem_singleton.mp h with h1
  subst h1
  exact ⟨rfl, rfl⟩

theorem mem_precalculatedMoves {pos : Position} {p : BasePiece} {fn : Nat → Nat}
    {dstMask : Nat} {sm : ScoredMove}
    (hpc : pos.boards.forPieceC p pos.toMove < twoPow64)
    (hfn : ∀ src, fn src < twoPow64)
    (h : sm ∈ precalculatedMoves pos p fn dstMask) :
    sm.move.mtype = .standard ∧
      (pos.boards.forPieceC p pos.toMove).testBit sm.move.src = true ∧
      (fn sm.move.src &&& dstMask).testBit sm.move.dst = true := by
  obtain ⟨src, hsrc, hsm⟩ := List.mem_flatMap.mp h
  obtain ⟨ht, he, hd⟩ := mem_pushStandardsFrom (lt64_and_left (hfn src)) hsm
  subst he
  exact ⟨ht, mem_squaresList hpc hsrc, hd⟩

theorem mem_generateKings_noCastle {opts : GlobalOptions} {pos : Position} {dstMask : Nat}
    {sm : ScoredMove} (h : sm ∈ generateKings false opts pos dstMask) :
    sm ∈ precalculatedMoves pos .king kingAttacks dstMask := by
  unfold generateKings at h
  simpa using h

theorem multipleBits_ne_zero {b : Nat} (h : multipleBits b = true) : b ≠ 0 := by
  intro h0
  subst h0
  have : multipleBits 0 = false := by decide
  rw [this] at h
  exact Bool.false_ne_true h

theorem kings_src_eq {opts : GlobalOptions} {pos : Position} {mask k : Nat}
    (hk : k < 64) (hking : pos.boards.kings pos.toMove = squareBit k) :
    ∀ sm ∈ generateKings false opts pos mask, sm.move.src = k := by
  intro sm hm
  have hking' : pos.boards.forPieceC .king pos.toMove = squareBit k := hking
  have h1 := mem_precalculatedMoves (hking' ▸ squareBit_lt hk)
    (fun s => kingAttacks_lt s) (mem_generateKings_noCastle hm)
  have h2 := h1.2.1
  rw [hking', testBit_squareBit, decide_eq_true_eq] at h2
  exact h2.symm

/-- C2: in double check every move emitted by generateNoisy, generateQuiet
and generateAll has the king of the side to move as its source, and each
generator emits exactly the king moves of its early-return branch. -/
theorem c2_double_check_kings_only (opts : GlobalOptions) (pos : Position) (k : Nat)
    (hmult : multipleBits pos.checkers = true) (hk : k < 64)
    (hking : pos.boards.kings pos.toMove = squareBit k) :
    generateNoisy pos =
      generateKings false ⟨false, false⟩ pos (pos.boards.forColor (oppColor pos.toMove)) ∧
    generateQuiet opts pos =
      generateKings false opts pos
        (compl64 (pos.boards.forColor pos.toMove |||
          pos.boards.forColor (oppColor pos.toMove))) ∧
    generateAll opts pos =
      generateKings false opts pos (compl64 (pos.boards.forColor pos.toMove)) ∧
    (∀ sm ∈ generateNoisy pos, sm.move.src = k) ∧
    (∀ sm ∈ generateQuiet opts pos, sm.move.src = k) ∧
    (∀ sm ∈ generateAll opts pos, sm.move.src = k) := by
  have hnz : pos.checkers ≠ 0 := multipleBits_ne_zero hmult
  have hchk : pos.isCheck = true := by simp [Position.isCheck, hnz]
  have e1 : generateNoisy pos = generateKings false ⟨false, false⟩ pos
      (pos.boards.forColor (oppColor pos.toMove)) := by
    unfold generateNoisy
    simp [hchk, hmult]
  have e2 : generateQuiet opts pos = generateKings false opts pos
      (compl64 (pos.boards.forColor pos.toMove |||
        pos.boards.forColor (oppColor pos.toMove))) := by
    unfold generateQuiet
    simp [hchk, hmult]
  have e3 : generateAll opts pos = generateKings false opts pos
      (compl64 (pos.boards.forColor pos.toMove)) := by
    unfold generateAll
    simp [hchk, hmult]
  refine ⟨e1, e2, e3, ?_, ?_, ?_⟩
  · rw [e1]; exact kings_src_eq hk hking
  · rw [e2]; exact kings_src_eq hk hking
  · rw [e3]; exact kings_src_eq hk hking

/-- C2 witness: a concrete double check position, white king on e1 checked
by a rook on e8 and a bishop on a5. -/
theorem c2_double_check_kings_only_witness :
    (multipleBits posC.checkers = true ∧ 4 < 64 ∧
      posC.boards.kings posC.toMove = squareBit 4) ∧
    (∀ sm ∈ generateNoisy posC, sm.move.src = 4) := by
  refine ⟨by decide, ?_⟩
  exact (c2_double_check_kings_only ⟨false, true⟩ posC 4 (by decide) (by decide)
    (by decide)).2.2.2.1

/-- C6: staticEval equals the phase interpolation of the white-minus-black
tapered total with truncating division, scaled by (200 - halfmove)/200, then
divided by 8 when the position is likely drawn, negated when black is to
move, plus the constant tempo bonus. -/
theorem c6_staticEval_formula (pos : Position) (cache : Option PawnCache) :
    staticEval pos cache =
      (let t := evalTotal pos cache
       let interp := Int.tdiv (t.midgame * pos.phase + t.endgame * (24 - pos.phase)) 24
       let scaled := Int.tdiv (interp * (200 - (pos.halfmove : Int))) 200
       let drawn := if pos.isLikelyDrawn then Int.tdiv scaled 8 else scaled
       (if pos.toMove = .black then -drawn else drawn) + Tempo) := by
  simp only [staticEval, evalTotal, evaluator, Position.interpScore]
  split_ifs <;> ring

theorem nextU64_fst_lt (s : Jsf64) : (s.nextU64).1 < twoPow64 :=
  Nat.mod_lt _ twoPow64_pos

theorem nextU32_fst_lt (s : Jsf64) : (s.nextU32).1 < twoPow32 := by
  have h := nextU64_fst_lt s
  show (s.nextU64).1 >>> 32 < twoPow32
  rw [Nat.shiftRight_eq_div_pow]
  rw [Nat.div_lt_iff_lt_mul (by norm_num : 0 < 2 ^ 32)]
  calc (s.nextU64).1 < twoPow64 := h
  _ = twoPow32 * 2 ^ 32 := by norm_num [twoPow64, twoPow32]

theorem mulShift_lt {x bound : Nat} (hx : x < twoPow32) (hb : 0 < bound) :
    (x * bound) >>> 32 < bound := by
  rw [Nat.shiftRight_eq_div_pow]
  rw [Nat.div_lt_iff_lt_mul (by norm_num : 0 < 2 ^ 32)]
  calc x * bound < twoPow32 * bound := (Nat.mul_lt_mul_right hb).mpr hx
  _ = bound * 2 ^ 32 := by rw [Nat.mul_comm]; norm_num [twoPow32]

theorem nextU32BoundedGo_lt {bound t : Nat} (hb : 0 < bound) :
    ∀ fuel s r s2, nextU32BoundedGo bound t fuel s = some (r, s2) → r < bound := by
  intro fuel
  induction fuel with
  | zero => intro s r s2 h; exact absurd h (by simp [nextU32BoundedGo])
  | succ n ih =>
    intro s r s2 h
    unfold nextU32BoundedGo at h
    dsimp only at h
    split at h
    · exact ih _ _ _ h
    · have h1 := (Prod.mk.injEq _ _ _ _).mp (Option.some.inj h)
      rw [← h1.1]
      exact mulShift_lt (nextU32_fst_lt s) hb

/-- C10: a bounded draw with bound zero returns zero at once, and whenever a
draw with a positive bound returns, the result is strictly below the bound. -/
theorem c10_rng_bound (bound : Nat) (hb : 0 < bound) :
    (∀ fuel s, Jsf64.nextU32Bounded 0 fuel s = some (0, s)) ∧
    (∀ fuel s r s2, Jsf64.nextU32Bounded bound fuel s = some (r, s2) → r < bound) := by
  constructor
  · intro fuel s; simp [Jsf64.nextU32Bounded]
  · intro fuel s r s2 h
    unfold Jsf64.nextU32Bounded at h
    rw [if_neg (by omega)] at h
    dsimp only at h
    split at h
    · split at h
      · exact nextU32BoundedGo_lt hb _ _ _ _ h
      · have h1 := (Prod.mk.injEq _ _ _ _).mp (Option.some.inj h)
        rw [← h1.1]
        exact mulShift_lt (nextU32_fst_lt s) hb
    · have h1 := (Prod.mk.injEq _ _ _ _).mp (Option.some.inj h)
      rw [← h1.1]
      exact mulShift_lt (nextU32_fst_lt s) hb

/-- C10 witness: the bound five, a seeded state and one concrete draw. -/
theorem c10_rng_bound_witness :
    0 < 5 ∧ (∀ fuel s, Jsf64.nextU32Bounded 0 fuel s = some (0, s)) ∧
      (∀ fuel s r s2, Jsf64.nextU32Bounded 5 fuel s = some (r, s2) → r < 5) :=
  ⟨by decide, (c10_rng_bound 5 (by decide)).1, (c10_rng_bound 5 (by decide)).2⟩

/-- C9: the truncated sum of the center polynomial coefficients equals the
normalization constant, and the polynomial argument is min(ply, 240) / 64. -/
theorem c9_winrate_normalization :
    truncToInt winRateAs.sum = NormalizationK ∧
    ∀ ply : Nat, winRateArg ply = ((min ply 240 : Nat) : ℚ) / 64 := by
  constructor
  · have hsum : winRateAs.sum = (4564918523 : ℚ) / 50000000 := by
      norm_num [winRateAs]
    rw [truncToInt, hsum]
    rw [if_neg (by norm_num)]
    rw [Int.floor_eq_iff]
    norm_num [NormalizationK]
  · intro ply
    unfold winRateArg
    rw [Nat.cast_min, min_comm]
    norm_num

theorem genNoisyStep_stage (I : GenInputs) (st : GenState) :
    (genNoisyStep I st).stage = st.stage := rfl

theorem genQuietStep_stage (I : GenInputs) (st : GenState) :
    (genQuietStep I st).stage = st.stage := rfl

theorem findNextStep_stage (st : GenState) : (findNextStep st).2.stage = st.stage := by
  unfold findNextStep
  split
  · rfl
  · rfl

theorem nextGo_stage_mono (I : GenInputs) :
    ∀ fuel st, st.stage ≤ (nextGo I fuel st).2.stage := by
  intro fuel
  induction fuel with
  | zero => intro st; exact le_refl _
  | succ n ih =>
    intro st
    unfold nextGo
    simp only [stageStart, stageHash, stageGoodNoisy, stageKiller, stageCountermove,
      stageQuiet, stageBadNoisy, stageEnd]
    split
    · repeat' split
      all_goals
        first
        | (dsimp only; omega)
        | (refine le_trans ?_ (ih _)
           dsimp only [genNoisyStep_stage, genQuietStep_stage]
           omega)
    · split
      · rw [findNextStep_stage]
      · exact le_trans (le_of_eq (findNextStep_stage st).symm) (ih _)

/-- C4 counterexample: the hash move e2 to e5 is not pseudolegal in the
starting position, yet the first next() call yields it, because the Hash
stage checks only that the hash move is non-null. -/
theorem c4_counterexample :
    Move.standard 12 36 ≠ NullMove ∧
    isPseudolegal ⟨false, true⟩ posStart (Move.standard 12 36) = false ∧
    (nextMove c4Inputs initGenState).1 = Move.standard 12 36 := by
  refine ⟨by decide, by decide, ?_⟩
  rfl

/-- C4 amended: the Hash stage yields the provided hash move exactly when it
is non-null; no pseudolegality check is applied to it.  When the hash move
is null the first yield happens at a later stage. -/
theorem nextGo_succ_hash (I : GenInputs) (n : Nat) (st : GenState)
    (hb : st.idx = st.moves.length ∨ st.idx = st.goodNoisyEnd)
    (hs : st.stage + 1 = stageHash) :
    nextGo I (n + 1) st =
      (if I.hashMove ≠ NullMove then (I.hashMove, { st with stage := st.stage + 1 })
       else nextGo I n { st with stage := st.stage + 1 }) := by
  simp only [nextGo]
  rw [if_pos hb]
  rw [if_pos hs]

theorem nextGo_succ_goodNoisy (I : GenInputs) (n : Nat) (st : GenState)
    (hb : st.idx = st.moves.length ∨ st.idx = st.goodNoisyEnd)
    (hs : st.stage + 1 = stageGoodNoisy) :
    nextGo I (n + 1) st =
      nextGo I n
        (if I.quiescence then
          { genNoisyStep I { st with stage := st.stage + 1 } with stage := stageEnd }
        else genNoisyStep I { st with stage := st.stage + 1 }) := by
  simp only [nextGo]
  rw [if_pos hb]
  rw [if_neg (by simp [stageHash, stageGoodNoisy] at hs ⊢; omega)]
  rw [if_pos hs]

theorem c4_hash_stage_nullcheck_only (I : GenInputs) :
    (I.hashMove ≠ NullMove →
      nextMove I initGenState = (I.hashMove, { initGenState with stage := stageHash })) ∧
    (I.hashMove = NullMove → stageGoodNoisy ≤ (nextMove I initGenState).2.stage) := by
  have e1 := nextGo_succ_hash I 599 initGenState (by simp [initGenState]) rfl
  have hm : nextMove I initGenState = nextGo I (599 + 1) initGenState := rfl
  constructor
  · intro h
    rw [hm, e1, if_pos h]
    rfl
  · intro h
    rw [hm, e1, if_neg (by simp [h])]
    have e2 := nextGo_succ_goodNoisy I 598
      (⟨stageStart + 1, [], 0, 0, 0, NullMove⟩ : GenState) (by simp) rfl
    simp only [initGenState]
    rw [show (599 : Nat) = 598 + 1 from rfl, e2]
    refine le_trans ?_ (nextGo_stage_mono I 598 _)
    split
    · simp [stageGoodNoisy, stageEnd]
    · rw [genNoisyStep_stage]
      simp [stageGoodNoisy, stageStart]

/-- C4 witness: a concrete non-null hash move is yielded by the first call. -/
theorem c4_hash_stage_nullcheck_only_witness :
    Move.standard 12 36 ≠ NullMove ∧
    nextMove c4Inputs initGenState =
      (Move.standard 12 36, { initGenState with stage := stageHash }) := by
  refine ⟨by decide, ?_⟩
  exact (c4_hash_stage_nullcheck_only c4Inputs).1 (by decide)

/-- C3: the code yields the same move twice.  Over posD with the noisy
capture a4 takes b5 stored as the countermove of the previous move, the
first two next() calls both return that capture: it is yielded in the good
noisy stage while the countermove is still unset, and again at the
countermove stage. -/
theorem c3_countermove_duplicate :
    runGen inD 2 initGenState = [Move.standard 24 33, Move.standard 24 33] ∧
    Move.standard 24 33 ≠ NullMove ∧
    isPseudolegal ⟨false, true⟩ posD (Move.standard 24 33) = true := by
  refine ⟨?_, by decide, by decide⟩
  rfl

theorem promoScores_getD_le (i : Nat) : PromoScores.getD i 0 ≤ 2 := by
  match i with
  | 0 => decide
  | 1 => decide
  | 2 => decide
  | 3 => decide
  | n + 4 =>
    rw [List.getD_eq_default _ _ (by simp [PromoScores])]
    decide

theorem pieceValueMg_bounds {vals : BasePiece → Int}
    (hv : ∀ p, 0 ≤ vals p ∧ vals p ≤ 2000) (p : Option (BasePiece × Color)) :
    0 ≤ pieceValueMg vals p ∧ pieceValueMg vals p ≤ 2000 := by
  cases p with
  | none => exact ⟨le_refl 0, by simp [pieceValueMg]⟩
  | some q => exact hv q.1

/-- C7: the noisy score of every generated move matches the specification
formula (victim minus attacker times 2000 plus victim, the en passant and
non-capture promotion victim conventions included); the promotion biases
order queen above knight above rook above bishop; and for a losing capture
the penalty of 8 * 2000 * 2000 puts the score strictly below the good noisy
boundary of -4 * 2000 * 2000, for any piece values within the centipawn
scale. -/
theorem c7_noisy_scoring (vals : BasePiece → Int) (seeO : Move → Bool) (bd : PositionBoards)
    (hv : ∀ p, 0 ≤ vals p ∧ vals p ≤ 2000) :
    (∀ sm : ScoredMove,
       (scoreNoisyOne vals seeO bd sm).score = noisyScoreSpec vals seeO bd sm.move) ∧
    (PromoScores.getD (promoIdx .queen) 0 > PromoScores.getD (promoIdx .knight) 0 ∧
     PromoScores.getD (promoIdx .knight) 0 > PromoScores.getD (promoIdx .rook) 0 ∧
     PromoScores.getD (promoIdx .rook) 0 > PromoScores.getD (promoIdx .bishop) 0) ∧
    (∀ sm : ScoredMove,
       0 < (if sm.move.mtype = .enPassant then vals .pawn
            else pieceValueMg vals (bd.pieceAt sm.move.dst)) →
       seeO sm.move = false →
       (scoreNoisyOne vals seeO bd sm).score < -4 * 2000 * 2000) := by
  refine ⟨?_, by decide, ?_⟩
  · intro sm
    simp only [scoreNoisyOne, noisyScoreSpec]
    split_ifs <;> ring
  · intro sm hvict hsee
    simp only [scoreNoisyOne]
    rw [if_pos ⟨hvict, by simp [hsee]⟩]
    have hsrc := pieceValueMg_bounds hv (bd.pieceAt sm.move.src)
    have hdst : (if sm.move.mtype = .enPassant then vals .pawn
        else pieceValueMg vals (bd.pieceAt sm.move.dst)) ≤ 2000 := by
      split
      · exact (hv .pawn).2
      · exact (pieceValueMg_bounds hv _).2
    have hpr := promoScores_getD_le sm.move.targetIdx
    split
    · omega
    · omega

/-- C7 witness: the concrete centipawn values and a losing-capture score. -/
theorem c7_noisy_scoring_witness :
    (∀ p, 0 ≤ stdVals p ∧ stdVals p ≤ 2000) ∧
    (scoreNoisyOne stdVals (fun _ => false) posD.boards ⟨Move.standard 24 33, 0⟩).score <
      -4 * 2000 * 2000 := by
  have hv : ∀ p, 0 ≤ stdVals p ∧ stdVals p ≤ 2000 := by
    intro p
    cases p <;> exact (by decide)
  refine ⟨hv, ?_⟩
  exact (c7_noisy_scoring stdVals (fun _ => false) posD.boards hv).2.2
    ⟨Move.standard 24 33, 0⟩ (by decide) rfl

theorem eq_zero_iff_testBit {b : Nat} : b = 0 ↔ ∀ i, b.testBit i = false := by
  constructor
  · intro h i; subst h; exact Nat.zero_testBit i
  · intro h
    exact Nat.eq_of_testBit_eq (fun i => by rw [h i, Nat.zero_testBit])

theorem lor_eq_zero_iff {a b : Nat} : a ||| b = 0 ↔ a = 0 ∧ b = 0 := by
  constructor
  · intro h
    constructor
    · rw [eq_zero_iff_testBit]
      intro i
      have := eq_zero_iff_testBit.mp h i
      rw [Nat.testBit_lor] at this
      exact (Bool.or_eq_false_iff.mp this).1
    · rw [eq_zero_iff_testBit]
      intro i
      have := eq_zero_iff_testBit.mp h i
      rw [Nat.testBit_lor] at this
      exact (Bool.or_eq_false_iff.mp this).2
  · rintro ⟨h1, h2⟩; rw [h1, h2]; rfl

theorem land_lor_distrib_left (a b c : Nat) :
    a &&& (b ||| c) = (a &&& b) ||| (a &&& c) := by
  apply Nat.eq_of_testBit_eq
  intro i
  simp only [Nat.testBit_land, Nat.testBit_lor]
  cases a.testBit i <;> cases b.testBit i <;> cases c.testBit i <;> rfl

theorem lor_land_distrib_right (a b c : Nat) :
    (a ||| b) &&& c = (a &&& c) ||| (b &&& c) := by
  apply Nat.eq_of_testBit_eq
  intro i
  simp only [Nat.testBit_land, Nat.testBit_lor]
  cases a.testBit i <;> cases b.testBit i <;> cases c.testBit i <;> rfl

theorem popcount_zero : popcount 0 = 0 := by decide

theorem popcount_eq_zero {b : Nat} (h64 : b < twoPow64) : popcount b = 0 ↔ b = 0 := by
  constructor
  · intro h
    rw [eq_zero_iff_testBit]
    intro i
    by_cases hi : i < 64
    · by_contra hbit
      rw [Bool.not_eq_false] at hbit
      have hmem : i ∈ (Finset.range 64).filter (fun j => b.testBit j) := by
        simp [Finset.mem_filter, Finset.mem_range, hi, hbit]
      have := Finset.card_pos.mpr ⟨i, hmem⟩
      rw [popcount] at h
      omega
    · push_neg at hi
      exact Nat.testBit_lt_two_pow
        (lt_of_lt_of_le h64 (Nat.pow_le_pow_right (by norm_num) hi))
  · intro h; subst h; exact popcount_zero

theorem popcount_squareBit {s : Nat} (h : s < 64) : popcount (squareBit s) = 1 := by
  rw [popcount]
  have : (Finset.range 64).filter (fun i => (squareBit s).testBit i) = {s} := by
    ext i
    simp only [Finset.mem_filter, Finset.mem_range, Finset.mem_singleton, testBit_squareBit,
      decide_eq_true_eq]
    constructor
    · rintro ⟨_, h2⟩; exact h2.symm
    · rintro rfl; exact ⟨h, rfl⟩
  rw [this, Finset.card_singleton]

theorem popcount_eq_one {b : Nat} (h64 : b < twoPow64) (h : popcount b = 1) :
    ∃ s, s < 64 ∧ b = squareBit s := by
  rw [popcount, Finset.card_eq_one] at h
  obtain ⟨s, hs⟩ := h
  have hsmem : s ∈ (Finset.range 64).filter (fun i => b.testBit i) := by
    rw [hs]; exact Finset.mem_singleton_self s
  rw [Finset.mem_filter, Finset.mem_range] at hsmem
  refine ⟨s, hsmem.1, ?_⟩
  apply Nat.eq_of_testBit_eq
  intro i
  rw [testBit_squareBit]
  by_cases hi : i < 64
  · by_cases hbit : b.testBit i = true
    · have hmem : i ∈ (Finset.range 64).filter (fun j => b.testBit j) := by
        simp [Finset.mem_filter, Finset.mem_range, hi, hbit]
      rw [hs, Finset.mem_singleton] at hmem
      subst hmem
      simp [hbit]
    · rw [Bool.not_eq_true] at hbit
      rw [hbit]
      symm
      rw [decide_eq_false_iff_not]
      intro hsi
      subst hsi
      rw [hsmem.2] at hbit
      simp at hbit
  · push_neg at hi
    have h1 : b.testBit i = false := Nat.testBit_lt_two_pow
      (lt_of_lt_of_le h64 (Nat.pow_le_pow_right (by norm_num) hi))
    have h2 : decide (s = i) = false := by
      simp only [decide_eq_false_iff_not]
      omega
    rw [h1, h2]

theorem squareBit_light_iff :
    ∀ s, s < 64 →
      ((squareBit s &&& LightSquares = 0) ↔ (squareFile s + squareRank s) % 2 = 0) := by
  decide

theorem eq_squareBit_of_subset {X s : Nat} (hmem : X.testBit s = true)
    (hsub : ∀ i, X.testBit i = true → i = s) : X = squareBit s := by
  apply Nat.eq_of_testBit_eq
  intro i
  rw [testBit_squareBit]
  by_cases hb : X.testBit i = true
  · rw [hb, hsub i hb]
    simp
  · rw [Bool.not_eq_true] at hb
    rw [hb]
    symm
    rw [decide_eq_false_iff_not]
    intro hsi
    subst hsi
    rw [hmem] at hb
    simp at hb

theorem nonPk_split {bd : PositionBoards}
    (hocc : bd.nonPk &&& bd.occupancy = bd.nonPk) :
    bd.nonPk = bd.nonPkC .black ||| bd.nonPkC .white := by
  show bd.nonPk = (bd.nonPk &&& bd.blackOcc) ||| (bd.nonPk &&& bd.whiteOcc)
  rw [← land_lor_distrib_left]
  exact hocc.symm

theorem majors_testBit_nonPk {bd : PositionBoards} {i : Nat}
    (h : bd.majors.testBit i = true) : bd.nonPk.testBit i = true := by
  show (bd.minors ||| bd.majors).testBit i = true
  rw [Nat.testBit_lor, h, Bool.or_true]

theorem minors_majors_clash {bd : PositionBoards} {i : Nat}
    (hdisj : bd.minors &&& bd.majors = 0)
    (hmin : bd.minors.testBit i = true) (hmaj : bd.majors.testBit i = true) : False := by
  have : (bd.minors &&& bd.majors).testBit i = true := by
    rw [Nat.testBit_land, hmin, hmaj]; rfl
  rw [hdisj, Nat.zero_testBit] at this
  simp at this

theorem spec_majors_zero {bd : PositionBoards}
    (hocc : bd.nonPk &&& bd.occupancy = bd.nonPk)
    (hdisj : bd.minors &&& bd.majors = 0)
    (hspec : insufficientMaterialSpec bd) : bd.majors = 0 := by
  rw [eq_zero_iff_testBit]
  intro i
  by_contra hbit
  rw [Bool.not_eq_false] at hbit
  have hnp := majors_testBit_nonPk hbit
  rcases hspec.2 with h0 | ⟨c, hopp, s, hs, hc, hminor⟩ | ⟨sb, sw, _, _, hcb, hcw, hbb, hbw, _⟩
  · rw [h0, Nat.zero_testBit] at hnp; simp at hnp
  · have hone : bd.nonPk = squareBit s := by
      rw [nonPk_split hocc]
      cases c with
      | black =>
        simp only [oppColor] at hopp
        rw [hc, hopp, Nat.or_zero]
      | white =>
        simp only [oppColor] at hopp
        rw [hc, hopp, Nat.zero_or]
    rw [hone, testBit_squareBit, decide_eq_true_eq] at hnp
    subst hnp
    exact minors_majors_clash hdisj hminor hbit
  · have hone : bd.nonPk = squareBit sb ||| squareBit sw := by
      rw [nonPk_split hocc, hcb, hcw]
    rw [hone, Nat.testBit_lor, Bool.or_eq_true, testBit_squareBit, testBit_squareBit,
      decide_eq_true_eq, decide_eq_true_eq] at hnp
    have hmin : bd.minors.testBit i = true := by
      show (bd.knightB ||| bd.bishopB).testBit i = true
      rw [Nat.testBit_lor, Bool.or_eq_true]
      right
      rcases hnp with h | h
      · subst h; exact hbb
      · subst h; exact hbw
    exact minors_majors_clash hdisj hmin hbit

theorem nonPkC_eq_minorsC {bd : PositionBoards} (c : Color)
    (hmaj : bd.majors = 0) : bd.nonPkC c = bd.minorsC c := by
  show (bd.minors ||| bd.majors) &&& bd.forColor c = bd.minors &&& bd.forColor c
  rw [hmaj, Nat.or_zero]

theorem light_parity_ne {sb sw : Nat} (hsb : sb < 64) (hsw : sw < 64) :
    (decide (squareBit sb &&& LightSquares = 0) ≠
       decide (squareBit sw &&& LightSquares = 0)) ↔
      (squareFile sb + squareRank sb) % 2 ≠ (squareFile sw + squareRank sw) % 2 := by
  rw [ne_eq, decide_eq_decide, squareBit_light_iff sb hsb, squareBit_light_iff sw hsw]
  constructor
  · intro h hpar
    exact h (by rw [hpar])
  · intro h hiff
    rcases Nat.mod_two_eq_zero_or_one (squareFile sb + squareRank sb) with h0 | h0 <;>
      rcases Nat.mod_two_eq_zero_or_one (squareFile sw + squareRank sw) with h1 | h1
    · exact h (by omega)
    · exact absurd (hiff.mp h0) (by omega)
    · exact absurd (hiff.mpr h1) (by omega)
    · exact h (by omega)

theorem color_bishops_of_single {bd : PositionBoards} {s X : Nat}
    (hkb : bd.knightB &&& bd.bishopB = 0)
    (hsp : (bd.knightB &&& X) ||| (bd.bishopB &&& X) = squareBit s)
    (hbbit : bd.bishopB.testBit s = true) :
    bd.bishopB &&& X = squareBit s := by
  have hk0 : bd.knightB &&& X = 0 := by
    rw [eq_zero_iff_testBit]
    intro i
    by_contra hbit
    rw [Bool.not_eq_false] at hbit
    have hkn : bd.knightB.testBit i = true := by
      have h2 := hbit
      rw [Nat.testBit_land, Bool.and_eq_true] at h2
      exact h2.1
    have hu : ((bd.knightB &&& X) ||| (bd.bishopB &&& X)).testBit i = true := by
      rw [Nat.testBit_lor, hbit]
      rfl
    rw [hsp, testBit_squareBit, decide_eq_true_eq] at hu
    subst hu
    have hclash : (bd.knightB &&& bd.bishopB).testBit s = true := by
      rw [Nat.testBit_land, hkn, hbbit]
      rfl
    rw [hkb, Nat.zero_testBit] at hclash
    simp at hclash
  rw [← hsp, hk0, Nat.zero_or]

theorem insufficientMaterial_iff (bd : PositionBoards)
    (hb : bd.blackOcc < twoPow64) (hw : bd.whiteOcc < twoPow64)
    (hocc : bd.nonPk &&& bd.occupancy = bd.nonPk)
    (hdisj : bd.minors &&& bd.majors = 0)
    (hkb : bd.knightB &&& bd.bishopB = 0) :
    insufficientMaterial bd = true ↔ insufficientMaterialSpec bd := by
  have hnbw : bd.nonPkC .white < twoPow64 := lt64_and_right hw
  have hmcw : bd.minorsC .white < twoPow64 := lt64_and_right hw
  have hmcb : bd.minorsC .black < twoPow64 := lt64_and_right hb
  have hbbb : bd.bishops .black < twoPow64 := lt64_and_right hb
  have hbbw : bd.bishops .white < twoPow64 := lt64_and_right hw
  rw [insufficientMaterial]
  split_ifs with h1 h2 h3 h4
  · simp only [Bool.false_eq_true, false_iff]
    intro hspec
    rcases h1 with hp | hm
    · exact hp hspec.1
    · exact hm (spec_majors_zero hocc hdisj hspec)
  · push_neg at h1
    exact iff_of_true rfl ⟨h1.1, Or.inl h2⟩
  · push_neg at h1
    refine iff_of_true rfl ⟨h1.1, Or.inr (Or.inl ?_)⟩
    rcases h3 with ⟨hz, heq, hmult⟩ | ⟨hz, heq, hmult⟩
    · have hpc : popcount (bd.minorsC .white) < 2 := by
        simpa [multipleBits] using hmult
      by_cases hp0 : popcount (bd.minorsC .white) = 0
      · exfalso
        apply h2
        rw [nonPk_split hocc, hz, Nat.zero_or, heq, (popcount_eq_zero hmcw).mp hp0]
      · obtain ⟨s, hs64, hsq⟩ := popcount_eq_one hmcw (by omega)
        refine ⟨.white, hz, s, hs64, by rw [heq, hsq], ?_⟩
        have hbit : (bd.minorsC .white).testBit s = true := by
          rw [hsq, testBit_squareBit]
          simp
        have hb2 : ((bd.knightB ||| bd.bishopB) &&& bd.whiteOcc).testBit s = true := hbit
        rw [Nat.testBit_land, Bool.and_eq_true] at hb2
        exact hb2.1
    · have hpc : popcount (bd.minorsC .black) < 2 := by
        simpa [multipleBits] using hmult
      by_cases hp0 : popcount (bd.minorsC .black) = 0
      · exfalso
        apply h2
        rw [nonPk_split hocc, hz, Nat.or_zero, heq, (popcount_eq_zero hmcb).mp hp0]
      · obtain ⟨s, hs64, hsq⟩ := popcount_eq_one hmcb (by omega)
        refine ⟨.black, hz, s, hs64, by rw [heq, hsq], ?_⟩
        have hbit : (bd.minorsC .black).testBit s = true := by
          rw [hsq, testBit_squareBit]
          simp
        have hb2 : ((bd.knightB ||| bd.bishopB) &&& bd.blackOcc).testBit s = true := hbit
        rw [Nat.testBit_land, Bool.and_eq_true] at hb2
        exact hb2.1
  · push_neg at h1
    obtain ⟨⟨heqb, heqw⟩, hmb, hmw, hne⟩ := h4
    refine iff_of_true rfl ⟨h1.1, ?_⟩
    have hpb : popcount (bd.bishops .black) < 2 := by
      simpa [multipleBits] using hmb
    have hpw : popcount (bd.bishops .white) < 2 := by
      simpa [multipleBits] using hmw
    by_cases hb0 : bd.bishops .black = 0
    · have hwl : bd.bishops .white &&& LightSquares ≠ 0 := by
        intro h0
        apply hne
        rw [hb0, h0, Nat.zero_and]
      have hw0 : bd.bishops .white ≠ 0 := fun h0 => hwl (by rw [h0]; exact Nat.zero_and _)
      have hp0 : popcount (bd.bishops .white) ≠ 0 :=
        fun h => hw0 ((popcount_eq_zero hbbw).mp h)
      obtain ⟨sw, hsw64, hsqw⟩ := popcount_eq_one hbbw (by omega)
      refine Or.inr (Or.inl ⟨.white, ?_, sw, hsw64, by rw [heqw, hsqw], ?_⟩)
      · show bd.nonPkC Color.black = 0
        rw [heqb, hb0]
      have hbit : (bd.bishops .white).testBit sw = true := by
        rw [hsqw, testBit_squareBit]
        simp
      have hbB : (bd.bishopB &&& bd.whiteOcc).testBit sw = true := hbit
      rw [Nat.testBit_land, Bool.and_eq_true] at hbB
      rw [Nat.testBit_lor, hbB.1, Bool.or_true]
    · by_cases hw0 : bd.bishops .white = 0
      · have hp0 : popcount (bd.bishops .black) ≠ 0 :=
          fun h => hb0 ((popcount_eq_zero hbbb).mp h)
        obtain ⟨sb, hsb64, hsqb⟩ := popcount_eq_one hbbb (by omega)
        refine Or.inr (Or.inl ⟨.black, ?_, sb, hsb64, by rw [heqb, hsqb], ?_⟩)
        · show bd.nonPkC Color.white = 0
          rw [heqw, hw0]
        have hbit : (bd.bishops .black).testBit sb = true := by
          rw [hsqb, testBit_squareBit]
          simp
        have hbB : (bd.bishopB &&& bd.blackOcc).testBit sb = true := hbit
        rw [Nat.testBit_land, Bool.and_eq_true] at hbB
        rw [Nat.testBit_lor, hbB.1, Bool.or_true]
      · have hp0b : popcount (bd.bishops .black) ≠ 0 :=
          fun h => hb0 ((popcount_eq_zero hbbb).mp h)
        have hp0w : popcount (bd.bishops .white) ≠ 0 :=
          fun h => hw0 ((popcount_eq_zero hbbw).mp h)
        obtain ⟨sb, hsb64, hsqb⟩ := popcount_eq_one hbbb (by omega)
        obtain ⟨sw, hsw64, hsqw⟩ := popcount_eq_one hbbw (by omega)
        refine Or.inr (Or.inr ⟨sb, sw, hsb64, hsw64, by rw [heqb, hsqb], by rw [heqw, hsqw],
          ?_, ?_, ?_⟩)
        · have hbit : (bd.bishops .black).testBit sb = true := by
            rw [hsqb, testBit_squareBit]
            simp
          have hbB : (bd.bishopB &&& bd.blackOcc).testBit sb = true := hbit
          rw [Nat.testBit_land, Bool.and_eq_true] at hbB
          exact hbB.1
        · have hbit : (bd.bishops .white).testBit sw = true := by
            rw [hsqw, testBit_squareBit]
            simp
          have hbB : (bd.bishopB &&& bd.whiteOcc).testBit sw = true := hbit
          rw [Nat.testBit_land, Bool.and_eq_true] at hbB
          exact hbB.1
        · rw [hsqb, hsqw] at hne
          exact (light_parity_ne hsb64 hsw64).mp hne
  · push_neg at h1
    simp only [Bool.false_eq_true, false_iff]
    intro hspec
    have hmaj : bd.majors = 0 := spec_majors_zero hocc hdisj hspec
    rcases hspec.2 with h0 | ⟨c, hopp, s, hs64, hc, hmin⟩ |
      ⟨sb, sw, hsb, hsw, hcb, hcw, hbbit, hwbit, hpar⟩
    · exact h2 h0
    · apply h3
      cases c with
      | black =>
        right
        refine ⟨hopp, (nonPkC_eq_minorsC .black hmaj), ?_⟩
        intro hmm
        simp only [multipleBits, decide_eq_true_eq] at hmm
        rw [← nonPkC_eq_minorsC .black hmaj, hc, popcount_squareBit hs64] at hmm
        omega
      | white =>
        left
        refine ⟨hopp, (nonPkC_eq_minorsC .white hmaj), ?_⟩
        intro hmm
        simp only [multipleBits, decide_eq_true_eq] at hmm
        rw [← nonPkC_eq_minorsC .white hmaj, hc, popcount_squareBit hs64] at hmm
        omega
    · apply h4
      have hmbk : bd.minorsC .black = squareBit sb := by
        rw [← nonPkC_eq_minorsC .black hmaj, hcb]
      have hmwh : bd.minorsC .white = squareBit sw := by
        rw [← nonPkC_eq_minorsC .white hmaj, hcw]
      have hspb : (bd.knightB &&& bd.blackOcc) ||| (bd.bishopB &&& bd.blackOcc) =
          squareBit sb := by
        rw [← hmbk]
        exact (lor_land_distrib_right _ _ _).symm
      have hspw : (bd.knightB &&& bd.whiteOcc) ||| (bd.bishopB &&& bd.whiteOcc) =
          squareBit sw := by
        rw [← hmwh]
        exact (lor_land_distrib_right _ _ _).symm
      have hbeqb : bd.bishops .black = squareBit sb :=
        color_bishops_of_single hkb hspb hbbit
      have hbeqw : bd.bishops .white = squareBit sw :=
        color_bishops_of_single hkb hspw hwbit
      refine ⟨⟨by rw [hcb, hbeqb], by rw [hcw, hbeqw]⟩, ?_, ?_, ?_⟩
      · intro hmm
        simp only [multipleBits, decide_eq_true_eq] at hmm
        rw [hbeqb, popcount_squareBit hsb] at hmm
        omega
      · intro hmm
        simp only [multipleBits, decide_eq_true_eq] at hmm
        rw [hbeqw, popcount_squareBit hsw] at hmm
        omega
      · rw [hbeqb, hbeqw]
        exact (light_parity_ne hsb hsw).mpr hpar

theorem repLoop_iff (curr : Nat) (keys : List Nat) (left : Int) (hl : 1 ≤ left) :
    Position.repLoop curr keys left = true ↔ left ≤ (List.count curr keys : Int) := by
  induction keys generalizing left with
  | nil =>
    simp only [Position.repLoop, Bool.false_eq_true, false_iff, List.count_nil]
    omega
  | cons k rest ih =>
    rw [Position.repLoop]
    by_cases hk : k = curr
    · subst hk
      rw [if_pos rfl]
      have hc : (List.count k (k :: rest) : Int) = (List.count k rest : Int) + 1 := by
        simp [List.count_cons]
      rw [hc]
      by_cases h1 : left - 1 = 0
      · rw [if_pos h1]
        constructor
        · intro _
          have := Int.natCast_nonneg (List.count k rest)
          omega
        · intro _
          rfl
      · rw [if_neg h1]
        rw [ih (left - 1) (by omega)]
        omega
    · rw [if_neg hk]
      rw [ih left hl]
      have hc : List.count curr (k :: rest) = List.count curr rest := by
        simp [List.count_cons, hk]
      rw [hc]

/-- C5: isDrawn(threefold) is true exactly when the halfmove clock is at
least 100, or the Zobrist key appears (threefold ? 3 : 2) times in the game
history counting the current position, or the material is exactly KK, a
lone minor against a bare king, or KBKB with opposite-colored bishops.
Hypotheses: the occupancies are 64-bit, every non-pawn non-king piece is on
an occupied square, and the piece bitboards are pairwise disjoint where the
test distinguishes them. -/
theorem c5_isDrawn_iff (pos : Position) (threefold : Bool)
    (hb : pos.boards.blackOcc < twoPow64) (hw : pos.boards.whiteOcc < twoPow64)
    (hocc : pos.boards.nonPk &&& pos.boards.occupancy = pos.boards.nonPk)
    (hdisj : pos.boards.minors &&& pos.boards.majors = 0)
    (hkb : pos.boards.knightB &&& pos.boards.bishopB = 0) :
    pos.isDrawn threefold = true ↔ isDrawnSpec pos threefold := by
  rw [Position.isDrawn, isDrawnSpec]
  have hcount : List.count pos.zkey (pos.prevKeys ++ [pos.zkey]) =
      List.count pos.zkey pos.prevKeys.reverse + 1 := by
    rw [List.count_append, List.count_reverse]
    simp [List.count_cons]
  have hrep : Position.repLoop pos.zkey pos.prevKeys.reverse
      (if threefold then 2 else 1) = true ↔
      (if threefold then 3 else 2) ≤ List.count pos.zkey (pos.prevKeys ++ [pos.zkey]) := by
    cases threefold with
    | false =>
      rw [repLoop_iff _ _ _ (by decide), hcount]
      show (1 : Int) ≤ (List.count pos.zkey pos.prevKeys.reverse : Int) ↔
        2 ≤ List.count pos.zkey pos.prevKeys.reverse + 1
      omega
    | true =>
      rw [repLoop_iff _ _ _ (by decide), hcount]
      show (2 : Int) ≤ (List.count pos.zkey pos.prevKeys.reverse : Int) ↔
        3 ≤ List.count pos.zkey pos.prevKeys.reverse + 1
      omega
  by_cases h1 : 100 ≤ pos.halfmove
  · rw [if_pos h1]
    exact iff_of_true rfl (Or.inl h1)
  · rw [if_neg h1]
    dsimp only
    by_cases h2 : Position.repLoop pos.zkey pos.prevKeys.reverse
        (if threefold then 2 else 1) = true
    · rw [if_pos h2]
      exact iff_of_true rfl (Or.inr (Or.inl (hrep.mp h2)))
    · rw [if_neg h2]
      rw [insufficientMaterial_iff pos.boards hb hw hocc hdisj hkb]
      constructor
      · exact fun h => Or.inr (Or.inr h)
      · rintro (h | h | h)
        · exact absurd h h1
        · exact absurd (hrep.mpr h) h2
        · exact h

/-- Witness for C5: the hypotheses hold and the equivalence is instantiated
at the concrete KBKB position posE with a repeated key in its history. -/
theorem c5_isDrawn_iff_witness :
    (posE.boards.blackOcc < twoPow64 ∧ posE.boards.whiteOcc < twoPow64 ∧
     posE.boards.nonPk &&& posE.boards.occupancy = posE.boards.nonPk ∧
     posE.boards.minors &&& posE.boards.majors = 0 ∧
     posE.boards.knightB &&& posE.boards.bishopB = 0) ∧
    (posE.isDrawn false = true ↔ isDrawnSpec posE false) :=
  ⟨⟨by decide, by decide, by decide, by decide, by decide⟩,
   c5_isDrawn_iff posE false (by decide) (by decide) (by decide) (by decide) (by decide)⟩

theorem ts_sub_tsZero (x : TaperedScore) : x - tsZero = x := by
  cases x with
  | mk m e =>
    show TaperedScore.mk (m - 0) (e - 0) = TaperedScore.mk m e
    rw [Int.sub_zero, Int.sub_zero]

theorem foldl_snd_subset (P : Nat) (f : TaperedScore × Nat → Nat → TaperedScore × Nat)
    (hf : ∀ acc sq, (f acc sq).2 = acc.2 ∨ (f acc sq).2 = acc.2 ||| squareBit sq) :
    ∀ (l : List Nat), (∀ sq ∈ l, P.testBit sq = true) →
      ∀ (acc : TaperedScore × Nat), (∀ i, acc.2.testBit i = true → P.testBit i = true) →
      ∀ i, ((l.foldl f acc).2).testBit i = true → P.testBit i = true := by
  intro l
  induction l with
  | nil =>
    intro _ acc hacc i hbit
    exact hacc i hbit
  | cons sq rest ih =>
    intro hl acc hacc i hbit
    rw [List.foldl_cons] at hbit
    refine ih (fun s hs => hl s (List.mem_cons_of_mem _ hs)) (f acc sq) ?_ i hbit
    intro j hj
    rcases hf acc sq with h | h
    · rw [h] at hj
      exact hacc j hj
    · rw [h, Nat.testBit_lor, Bool.or_eq_true] at hj
      rcases hj with hj | hj
      · exact hacc j hj
      · rw [testBit_squareBit, decide_eq_true_eq] at hj
        subst hj
        exact hl sq (List.mem_cons_self _ _)

theorem passers_subset (pos : Position) (us : Color)
    (hp : pos.boards.pawns us < twoPow64) :
    ∀ i, ((evalPawnStructure pos us).2).testBit i = true →
      (pos.boards.pawns us).testBit i = true := by
  intro i hi
  simp only [evalPawnStructure] at hi
  refine foldl_snd_subset (pos.boards.pawns us) _ ?_ (squaresList (pos.boards.pawns us))
    (fun sq hs => mem_squaresList hp hs) _ ?_ i hi
  · intro acc sq
    dsimp only
    split_ifs <;> first | (left; rfl) | (right; rfl)
  · intro j hj
    rw [Nat.zero_testBit] at hj
    exact absurd hj (by simp)

theorem union_split_left {rb rw bOcc wOcc : Nat}
    (hd : bOcc &&& wOcc = 0)
    (hb : ∀ i, rb.testBit i = true → bOcc.testBit i = true)
    (hw : ∀ i, rw.testBit i = true → wOcc.testBit i = true) :
    (rb ||| rw) &&& bOcc = rb := by
  apply Nat.eq_of_testBit_eq
  intro i
  rw [Nat.testBit_land, Nat.testBit_lor]
  by_cases h1 : rb.testBit i = true
  · rw [h1, hb i h1, Bool.true_or, Bool.true_and]
  · rw [Bool.not_eq_true] at h1
    rw [h1, Bool.false_or]
    by_cases h2 : rw.testBit i = true
    · rw [h2]
      have hbo : bOcc.testBit i = false := by
        by_contra hh
        rw [Bool.not_eq_false] at hh
        have hz : (bOcc &&& wOcc).testBit i = true := by
          rw [Nat.testBit_land, hh, hw i h2]
          rfl
        rw [hd, Nat.zero_testBit] at hz
        simp at hz
      rw [hbo, Bool.true_and]
    · rw [Bool.not_eq_true] at h2
      rw [h2, Bool.false_and]

theorem union_split_right {rb rw bOcc wOcc : Nat}
    (hd : bOcc &&& wOcc = 0)
    (hb : ∀ i, rb.testBit i = true → bOcc.testBit i = true)
    (hw : ∀ i, rw.testBit i = true → wOcc.testBit i = true) :
    (rb ||| rw) &&& wOcc = rw := by
  rw [Nat.lor_comm]
  exact union_split_left (by rw [Nat.land_comm]; exact hd) hw hb

/-- C8: the evaluator's pawn cache use refines the uncached evaluation: the
probed entry counts as a hit exactly when its stored key equals the position
pawn key; on a mismatch that entry is unconditionally overwritten with the
pawn key, the white-minus-black structure score and the union of the passer
bitboards; and if the matching entry holds what evalPawnStructure computes,
the static evaluation equals the one computed with no cache.  Hypotheses:
64-bit occupancies disjoint between the colors. -/
theorem c8_pawn_cache_refinement (pos : Position) (c : PawnCache)
    (hb : pos.boards.blackOcc < twoPow64) (hw : pos.boards.whiteOcc < twoPow64)
    (hbw : pos.boards.blackOcc &&& pos.boards.whiteOcc = 0)
    (hentry : (c.probe pos.pawnKey).key = pos.pawnKey →
      (c.probe pos.pawnKey).eval =
        (evalPawnStructure pos .white).1 - (evalPawnStructure pos .black).1 ∧
      (c.probe pos.pawnKey).passers =
        (evalPawnStructure pos .black).2 ||| (evalPawnStructure pos .white).2) :
    ((evaluator pos (some c)).cachedPawnStructureEval = true ↔
      (c.probe pos.pawnKey).key = pos.pawnKey) ∧
    ((c.probe pos.pawnKey).key ≠ pos.pawnKey →
      ∃ c2, (evaluator pos (some c)).cacheOut = some c2 ∧
        c2.probe pos.pawnKey =
          ⟨pos.pawnKey,
           (evalPawnStructure pos .white).1 - (evalPawnStructure pos .black).1,
           (evalPawnStructure pos .black).2 ||| (evalPawnStructure pos .white).2⟩) ∧
    staticEval pos (some c) = staticEval pos none := by
  have hbp : pos.boards.pawns .black < twoPow64 :=
    lt_of_le_of_lt Nat.and_le_right hb
  have hwp : pos.boards.pawns .white < twoPow64 :=
    lt_of_le_of_lt Nat.and_le_right hw
  have hsubB : ∀ i, ((evalPawnStructure pos .black).2).testBit i = true →
      pos.boards.blackOcc.testBit i = true := by
    intro i hi
    have h2 : (pos.boards.pawnB &&& pos.boards.blackOcc).testBit i = true :=
      passers_subset pos .black hbp i hi
    rw [Nat.testBit_land, Bool.and_eq_true] at h2
    exact h2.2
  have hsubW : ∀ i, ((evalPawnStructure pos .white).2).testBit i = true →
      pos.boards.whiteOcc.testBit i = true := by
    intro i hi
    have h2 : (pos.boards.pawnB &&& pos.boards.whiteOcc).testBit i = true :=
      passers_subset pos .white hwp i hi
    rw [Nat.testBit_land, Bool.and_eq_true] at h2
    exact h2.2
  have hnone : pawnStructurePhase pos none =
      ((evalPawnStructure pos .black).1, (evalPawnStructure pos .white).1,
       (evalPawnStructure pos .black).2, (evalPawnStructure pos .white).2,
       false, none) := rfl
  by_cases hk : (c.probe pos.pawnKey).key = pos.pawnKey
  · obtain ⟨he, hp⟩ := hentry hk
    have hsome : pawnStructurePhase pos (some c) =
        (tsZero, (c.probe pos.pawnKey).eval,
         (c.probe pos.pawnKey).passers &&& pos.boards.blackOcc,
         (c.probe pos.pawnKey).passers &&& pos.boards.whiteOcc, true, some c) := by
      simp only [pawnStructurePhase]
      rw [if_pos hk]
    have hu1 : ((evalPawnStructure pos .black).2 ||| (evalPawnStructure pos .white).2) &&&
        pos.boards.blackOcc = (evalPawnStructure pos .black).2 :=
      union_split_left hbw hsubB hsubW
    have hu2 : ((evalPawnStructure pos .black).2 ||| (evalPawnStructure pos .white).2) &&&
        pos.boards.whiteOcc = (evalPawnStructure pos .white).2 :=
      union_split_right hbw hsubB hsubW
    refine ⟨⟨fun _ => hk, fun _ => ?_⟩, fun hne => absurd hk hne, ?_⟩
    · simp only [evaluator, hsome]
    · simp only [staticEval, evaluator, hsome, hnone]
      rw [he, hp, ts_sub_tsZero, hu1, hu2]
  · have hsome : pawnStructurePhase pos (some c) =
        ((evalPawnStructure pos .black).1, (evalPawnStructure pos .white).1,
         (evalPawnStructure pos .black).2, (evalPawnStructure pos .white).2, false,
         some (c.write pos.pawnKey
           ⟨pos.pawnKey,
            (evalPawnStructure pos .white).1 - (evalPawnStructure pos .black).1,
            (evalPawnStructure pos .black).2 ||| (evalPawnStructure pos .white).2⟩)) := by
      simp only [pawnStructurePhase]
      rw [if_neg hk]
    refine ⟨⟨fun hcached => ?_, fun h => absurd h hk⟩, fun _ => ?_, ?_⟩
    · exfalso
      have hfl : (evaluator pos (some c)).cachedPawnStructureEval = false := by
        simp only [evaluator, hsome]
      rw [hfl] at hcached
      exact Bool.false_ne_true hcached
    · refine ⟨c.write pos.pawnKey
        ⟨pos.pawnKey,
         (evalPawnStructure pos .white).1 - (evalPawnStructure pos .black).1,
         (evalPawnStructure pos .black).2 ||| (evalPawnStructure pos .white).2⟩, ?_, ?_⟩
      · simp only [evaluator, hsome]
      · simp [PawnCache.probe, PawnCache.write]
    · simp only [staticEval, evaluator, hsome, hnone]

/-- Witness for C8: the hypotheses hold and the refinement is instantiated
at the concrete position posE probed against a cache whose entry key does
not match, so the entry hypothesis is discharged vacuously. -/
theorem c8_pawn_cache_refinement_witness :
    (posE.boards.blackOcc < twoPow64 ∧ posE.boards.whiteOcc < twoPow64 ∧
     posE.boards.blackOcc &&& posE.boards.whiteOcc = 0) ∧
    ((evaluator posE (some emptyCache)).cachedPawnStructureEval = true ↔
      (emptyCache.probe posE.pawnKey).key = posE.pawnKey) ∧
    ((emptyCache.probe posE.pawnKey).key ≠ posE.pawnKey →
      ∃ c2, (evaluator posE (some emptyCache)).cacheOut = some c2 ∧
        c2.probe posE.pawnKey =
          ⟨posE.pawnKey,
           (evalPawnStructure posE .white).1 - (evalPawnStructure posE .black).1,
           (evalPawnStructure posE .black).2 ||| (evalPawnStructure posE .white).2⟩) ∧
    staticEval posE (some emptyCache) = staticEval posE none :=
  ⟨⟨by decide, by decide, by decide⟩,
   c8_pawn_cache_refinement posE emptyCache (by decide) (by decide) (by decide) (by decide)⟩

theorem U64Mask_lt : U64Mask < twoPow64 := by decide

theorem land_zero_no_common {A B : Nat} (h : A &&& B = 0) {i : Nat}
    (ha : A.testBit i = true) (hb : B.testBit i = true) : False := by
  have hz : (A &&& B).testBit i = true := by
    rw [Nat.testBit_land, ha, hb]
    rfl
  rw [h, Nat.zero_testBit] at hz
  simp at hz

theorem shiftUpRel_lt {c : Color} {b : Nat} (hb : b < twoPow64) :
    shiftUpRel c b < twoPow64 := by
  cases c with
  | white => exact lt64_and_right U64Mask_lt
  | black => exact lt_of_le_of_lt (by show b >>> 8 ≤ b; rw [Nat.shiftRight_eq_div_pow]; exact Nat.div_le_self b (2 ^ 8)) hb

theorem shiftUpLeftRel_lt {c : Color} {b : Nat} (hb : b < twoPow64) :
    shiftUpLeftRel c b < twoPow64 := by
  cases c with
  | white => exact lt64_and_left (lt64_and_right U64Mask_lt)
  | black => exact lt64_and_left (lt_of_le_of_lt (by show b >>> 9 ≤ b; rw [Nat.shiftRight_eq_div_pow]; exact Nat.div_le_self b (2 ^ 9)) hb)

theorem shiftUpRightRel_lt {c : Color} {b : Nat} (hb : b < twoPow64) :
    shiftUpRightRel c b < twoPow64 := by
  cases c with
  | white => exact lt64_and_left (lt64_and_right U64Mask_lt)
  | black => exact lt64_and_left (lt_of_le_of_lt (by show b >>> 7 ≤ b; rw [Nat.shiftRight_eq_div_pow]; exact Nat.div_le_self b (2 ^ 7)) hb)

theorem promotionRankBB_lt (c : Color) : promotionRankBB c < twoPow64 := by
  cases c <;> decide

theorem mem_generateSliders {pos : Position} {M : Nat} {sm : ScoredMove}
    (h : sm ∈ generateSliders pos M) : M.testBit sm.move.dst = true := by
  simp only [generateSliders] at h
  rcases List.mem_append.mp h with h1 | h1
  · obtain ⟨src, _, hsm⟩ := List.mem_flatMap.mp h1
    obtain ⟨_, _, hd⟩ := mem_pushStandardsFrom (lt64_and_left (rookAttacks_lt _ _)) hsm
    exact testBit_land_right hd
  · obtain ⟨src, _, hsm⟩ := List.mem_flatMap.mp h1
    obtain ⟨_, _, hd⟩ := mem_pushStandardsFrom (lt64_and_left (bishopAttacks_lt _ _)) hsm
    exact testBit_land_right hd

theorem mem_generateKnights {pos : Position} {M : Nat} {sm : ScoredMove}
    (hk64 : pos.boards.forPieceC .knight pos.toMove < twoPow64)
    (h : sm ∈ generateKnights pos M) : M.testBit sm.move.dst = true :=
  testBit_land_right
    (mem_precalculatedMoves hk64 (fun s => knightAttacks_lt s) h).2.2

theorem mem_generateKings_dst {castling : Bool} {opts : GlobalOptions} {pos : Position}
    {M : Nat} {sm : ScoredMove}
    (hcase : castling = false ∨ pos.isCheck = true)
    (hk64 : pos.boards.forPieceC .king pos.toMove < twoPow64)
    (h : sm ∈ generateKings castling opts pos M) : M.testBit sm.move.dst = true := by
  have hpre : sm ∈ precalculatedMoves pos .king kingAttacks M := by
    unfold generateKings at h
    rcases hcase with hcf | hchk
    · subst hcf
      simpa using h
    · rw [if_neg (by simp [hchk])] at h
      simpa using h
  exact testBit_land_right (mem_precalculatedMoves hk64 (fun s => kingAttacks_lt s) hpre).2.2

theorem mem_generatePawnsNoisy {pos : Position} {M : Nat} {sm : ScoredMove}
    (hpawns : pos.boards.pawns pos.toMove < twoPow64)
    (htheirs : pos.boards.forColor (oppColor pos.toMove) < twoPow64)
    (h : sm ∈ generatePawnsNoisy pos M) :
    M.testBit sm.move.dst = true ∧
      (sm.move.mtype = .enPassant → ((epMasks pos).1).testBit sm.move.dst = true) := by
  simp only [generatePawnsNoisy] at h
  rcases List.mem_append.mp h with h | hT
  · rcases List.mem_append.mp h with h | h5
    · rcases List.mem_append.mp h with h | h4
      · rcases List.mem_append.mp h with h | h3
        · rcases List.mem_append.mp h with h1 | h2
          · obtain ⟨ht, hbit, _⟩ :=
              mem_pushQueenPromotions (lt64_and_left (lt64_and_right htheirs)) h1
            exact ⟨testBit_land_right (testBit_land_left (testBit_land_left hbit)),
              fun hep => absurd (ht.symm.trans hep) (by decide)⟩
          · obtain ⟨ht, hbit, _⟩ :=
              mem_pushQueenPromotions (lt64_and_left (lt64_and_right htheirs)) h2
            exact ⟨testBit_land_right (testBit_land_left (testBit_land_left hbit)),
              fun hep => absurd (ht.symm.trans hep) (by decide)⟩
        · obtain ⟨ht, hbit, _⟩ :=
            mem_pushQueenPromotions (lt64_and_left (shiftUpRel_lt hpawns)) h3
          exact ⟨testBit_land_left (testBit_land_left (testBit_land_right hbit)),
            fun hep => absurd (ht.symm.trans hep) (by decide)⟩
      · obtain ⟨ht, hbit, _⟩ :=
          mem_pushStandardsOff (lt64_and_left (lt64_and_right htheirs)) h4
        exact ⟨testBit_land_right (testBit_land_left (testBit_land_left hbit)),
          fun hep => absurd (ht.symm.trans hep) (by decide)⟩
    · obtain ⟨ht, hbit, _⟩ :=
        mem_pushStandardsOff (lt64_and_left (lt64_and_right htheirs)) h5
      exact ⟨testBit_land_right (testBit_land_left (testBit_land_left hbit)),
        fun hep => absurd (ht.symm.trans hep) (by decide)⟩
  · rcases hepq : pos.enPassantSq with _ | ep
    · rw [hepq] at hT
      simp at hT
    · rw [hepq] at hT
      dsimp only at hT
      have hmask1 : (epMasks pos).1 = squareBit ep := by
        simp [epMasks, hepq]
      rcases List.mem_append.mp hT with h1 | h1
      · obtain ⟨ht, hbit, _⟩ :=
          mem_pushEnPassants (lt64_and_left (lt64_and_left (shiftUpLeftRel_lt hpawns))) h1
        refine ⟨testBit_land_right (testBit_land_left hbit), fun _ => ?_⟩
        rw [hmask1]
        exact testBit_land_right hbit
      · obtain ⟨ht, hbit, _⟩ :=
          mem_pushEnPassants (lt64_and_left (lt64_and_left (shiftUpRightRel_lt hpawns))) h1
        refine ⟨testBit_land_right (testBit_land_left hbit), fun _ => ?_⟩
        rw [hmask1]
        exact testBit_land_right hbit

theorem mem_generatePawnsQuiet {opts : GlobalOptions} {pos : Position} {M occ : Nat}
    {sm : ScoredMove}
    (hpawns : pos.boards.pawns pos.toMove < twoPow64)
    (htheirs : pos.boards.forColor (oppColor pos.toMove) < twoPow64)
    (h : sm ∈ generatePawnsQuiet opts pos M occ) : M.testBit sm.move.dst = true := by
  simp only [generatePawnsQuiet] at h
  rcases List.mem_append.mp h with h | h5
  · rcases List.mem_append.mp h with h | h4
    · rcases List.mem_append.mp h with h | h3
      · rcases List.mem_append.mp h with h1 | h2
        · obtain ⟨_, hbit, _⟩ :=
            mem_pushUnderpromotions (lt64_and_left (lt64_and_right htheirs)) h1
          exact testBit_land_right (testBit_land_left (testBit_land_left hbit))
        · obtain ⟨_, hbit, _⟩ :=
            mem_pushUnderpromotions (lt64_and_left (lt64_and_right htheirs)) h2
          exact testBit_land_right (testBit_land_left (testBit_land_left hbit))
      · obtain ⟨_, hbit, _⟩ :=
          mem_pushUnderpromotions (lt64_and_right (promotionRankBB_lt pos.toMove)) h3
        exact testBit_land_left (testBit_land_right (testBit_land_left hbit))
    · obtain ⟨_, hbit, _⟩ := mem_pushStandardsOff
        (lt64_and_left (shiftUpRel_lt (lt64_and_left (lt64_and_left (shiftUpRel_lt hpawns))))) h4
      exact testBit_land_left (testBit_land_right hbit)
  · obtain ⟨_, hbit, _⟩ := mem_pushStandardsOff
      (lt64_and_left (lt64_and_left (lt64_and_left (shiftUpRel_lt hpawns)))) h5
    exact testBit_land_left (testBit_land_right (testBit_land_left hbit))

/-- C1 (amended): in single check, generateNoisy restricts sliders and
knights to the checker square and kings to enemy-occupied squares, while
the pawn destinations are enemy-occupied squares, promotion squares on the
king-checker ray, and the en passant square only when the captured pawn is
the checker; generateQuiet restricts sliders and knights to the blocking
ray, pawns to the ray plus promotions onto the checker square, and kings
to unoccupied squares. -/
theorem c1_single_check_masks (opts : GlobalOptions) (pos : Position) (c : Nat)
    (hc64 : c < 64) (hc : pos.checkers = squareBit c)
    (hb : pos.boards.blackOcc < twoPow64) (hw : pos.boards.whiteOcc < twoPow64)
    (hepT : (epMasks pos).1 &&& pos.boards.forColor (oppColor pos.toMove) = 0)
    (hepR : (epMasks pos).1 &&& (if pos.toMove = .black then Rank1 else Rank8) = 0) :
    (generateNoisy pos =
      generateSliders pos pos.checkers ++
      generatePawnsNoisy pos
        (pos.boards.forColor (oppColor pos.toMove) |||
         compl64 (pos.boards.forColor pos.toMove) &&&
           (if pos.toMove = .black then Rank1 else Rank8) &&&
           rayBetween (pos.kingSq pos.toMove) (lowestSquare pos.checkers) |||
         (if pos.checkers &&& (epMasks pos).2 ≠ 0 then (epMasks pos).1 else 0)) ++
      generateKnights pos pos.checkers ++
      generateKings false ⟨false, false⟩ pos (pos.boards.forColor (oppColor pos.toMove))) ∧
    (∀ sm ∈ generateSliders pos pos.checkers,
      pos.checkers.testBit sm.move.dst = true) ∧
    (∀ sm ∈ generateKnights pos pos.checkers,
      pos.checkers.testBit sm.move.dst = true) ∧
    (∀ sm ∈ generatePawnsNoisy pos
        (pos.boards.forColor (oppColor pos.toMove) |||
         compl64 (pos.boards.forColor pos.toMove) &&&
           (if pos.toMove = .black then Rank1 else Rank8) &&&
           rayBetween (pos.kingSq pos.toMove) (lowestSquare pos.checkers) |||
         (if pos.checkers &&& (epMasks pos).2 ≠ 0 then (epMasks pos).1 else 0)),
      (pos.boards.forColor (oppColor pos.toMove) |||
       compl64 (pos.boards.forColor pos.toMove) &&&
         (if pos.toMove = .black then Rank1 else Rank8) &&&
         rayBetween (pos.kingSq pos.toMove) (lowestSquare pos.checkers) |||
       (if pos.checkers &&& (epMasks pos).2 ≠ 0 then (epMasks pos).1 else 0)).testBit
          sm.move.dst = true ∧
      (sm.move.mtype = .enPassant → pos.checkers &&& (epMasks pos).2 ≠ 0 ∧
        ((epMasks pos).1).testBit sm.move.dst = true)) ∧
    (∀ sm ∈ generateKings false ⟨false, false⟩ pos
        (pos.boards.forColor (oppColor pos.toMove)),
      (pos.boards.forColor (oppColor pos.toMove)).testBit sm.move.dst = true) ∧
    (generateQuiet opts pos =
      generateSliders pos (rayBetween (pos.kingSq pos.toMove) (lowestSquare pos.checkers)) ++
      generatePawnsQuiet opts pos
        (rayBetween (pos.kingSq pos.toMove) (lowestSquare pos.checkers) |||
         pos.checkers &&& promotionRankBB pos.toMove)
        (pos.boards.forColor pos.toMove ||| pos.boards.forColor (oppColor pos.toMove)) ++
      generateKnights pos (rayBetween (pos.kingSq pos.toMove) (lowestSquare pos.checkers)) ++
      generateKings true opts pos
        (compl64 (pos.boards.forColor pos.toMove |||
          pos.boards.forColor (oppColor pos.toMove)))) ∧
    (∀ sm ∈ generateSliders pos
        (rayBetween (pos.kingSq pos.toMove) (lowestSquare pos.checkers)),
      (rayBetween (pos.kingSq pos.toMove) (lowestSquare pos.checkers)).testBit
        sm.move.dst = true) ∧
    (∀ sm ∈ generateKnights pos
        (rayBetween (pos.kingSq pos.toMove) (lowestSquare pos.checkers)),
      (rayBetween (pos.kingSq pos.toMove) (lowestSquare pos.checkers)).testBit
        sm.move.dst = true) ∧
    (∀ sm ∈ generatePawnsQuiet opts pos
        (rayBetween (pos.kingSq pos.toMove) (lowestSquare pos.checkers) |||
         pos.checkers &&& promotionRankBB pos.toMove)
        (pos.boards.forColor pos.toMove ||| pos.boards.forColor (oppColor pos.toMove)),
      (rayBetween (pos.kingSq pos.toMove) (lowestSquare pos.checkers) |||
       pos.checkers &&& promotionRankBB pos.toMove).testBit sm.move.dst = true) ∧
    (∀ sm ∈ generateKings true opts pos
        (compl64 (pos.boards.forColor pos.toMove |||
          pos.boards.forColor (oppColor pos.toMove))),
      (compl64 (pos.boards.forColor pos.toMove |||
        pos.boards.forColor (oppColor pos.toMove))).testBit sm.move.dst = true) := by
  have hocc64 : ∀ cc : Color, pos.boards.forColor cc < twoPow64 := by
    intro cc
    cases cc
    · exact hb
    · exact hw
  have hpawns : pos.boards.pawns pos.toMove < twoPow64 := lt64_and_right (hocc64 _)
  have htheirs : pos.boards.forColor (oppColor pos.toMove) < twoPow64 := hocc64 _
  have hknight64 : pos.boards.forPieceC .knight pos.toMove < twoPow64 :=
    lt64_and_right (hocc64 _)
  have hking64 : pos.boards.forPieceC .king pos.toMove < twoPow64 :=
    lt64_and_right (hocc64 _)
  have hnz : pos.checkers ≠ 0 := by
    rw [hc, squareBit_eq_pow]
    exact pow_ne_zero c (by norm_num)
  have hchk : pos.isCheck = true := by
    simp [Position.isCheck, hnz]
  have hsingle : multipleBits pos.checkers = false := by
    rw [hc]
    simp [multipleBits, popcount_squareBit hc64]
  refine ⟨?_, ?_, ?_, ?_, ?_, ?_, ?_, ?_, ?_, ?_⟩
  · unfold generateNoisy
    simp [hchk, hsingle]
  · exact fun sm hm => mem_generateSliders hm
  · exact fun sm hm => mem_generateKnights hknight64 hm
  · intro sm hm
    obtain ⟨hdst, hepd⟩ := mem_generatePawnsNoisy hpawns htheirs hm
    refine ⟨hdst, fun hep => ?_⟩
    have hepbit := hepd hep
    by_cases hcond : pos.checkers &&& (epMasks pos).2 ≠ 0
    · exact ⟨hcond, hepbit⟩
    · exfalso
      push_neg at hcond
      rw [if_neg (not_not_intro hcond), Nat.or_zero, Nat.testBit_lor,
        Bool.or_eq_true] at hdst
      rcases hdst with hA | hB
      · exact land_zero_no_common hepT hepbit hA
      · exact land_zero_no_common hepR hepbit
          (testBit_land_right (testBit_land_left hB))
  · exact fun sm hm => mem_generateKings_dst (Or.inl rfl) hking64 hm
  · unfold generateQuiet
    simp [hchk, hsingle]
  · exact fun sm hm => mem_generateSliders hm
  · exact fun sm hm => mem_generateKnights hknight64 hm
  · exact fun sm hm => mem_generatePawnsQuiet hpawns htheirs hm
  · exact fun sm hm => mem_generateKings_dst (Or.inr hchk) hking64 hm

/-- Counterexample to C1 as stated: in single check, generateNoisy emits
the pawn capture a4xb5 of a non-checking rook, whose destination is neither
the checker square nor on the king-checker ray; and generateQuiet emits the
underpromotion capture b7xa8=N whose destination is exactly the checker
square, which the claim forbids for quiet non-king moves. -/
theorem c1_counterexample :
    (⟨Move.standard 24 33, 0⟩ : ScoredMove) ∈ generateNoisy posA ∧
    (posA.boards.pawns posA.toMove).testBit 24 = true ∧
    (posA.checkers |||
      rayBetween (posA.kingSq posA.toMove) (lowestSquare posA.checkers)).testBit 33 =
        false ∧
    (⟨Move.promotion 49 56 .knight, 0⟩ : ScoredMove) ∈ generateQuiet ⟨false, true⟩ posB ∧
    (posB.boards.pawns posB.toMove).testBit 49 = true ∧
    posB.checkers.testBit 56 = true := by
  refine ⟨by decide, by decide, by decide, by decide, by decide, by decide⟩

/-- Witness for the amended C1: the hypotheses hold at the single-check
position posA, and the knight conjunct is instantiated there. -/
theorem c1_single_check_masks_witness :
    (21 < 64 ∧ posA.checkers = squareBit 21 ∧
     posA.boards.blackOcc < twoPow64 ∧ posA.boards.whiteOcc < twoPow64 ∧
     (epMasks posA).1 &&& posA.boards.forColor (oppColor posA.toMove) = 0 ∧
     (epMasks posA).1 &&& (if posA.toMove = .black then Rank1 else Rank8) = 0) ∧
    (∀ sm ∈ generateKnights posA posA.checkers,
      posA.checkers.testBit sm.move.dst = true) :=
  ⟨⟨by decide, by decide, by decide, by decide, by decide, by decide⟩,
   (c1_single_check_masks ⟨false, true⟩ posA 21 (by decide) (by decide) (by decide)
     (by decide) (by decide) (by decide)).2.2.1⟩

end Polaris
